import Mathlib

/-!
# Verification of the CodeFrame core services

Shallow embedding, in Lean 4, of the core services of the CodeFrame
repository (a browser-hosted AI coding assistant), together with proofs of
the behavioural claims made by its specification.

Embedded components:
* the retry / circuit-breaker utility (`retry.util`),
* the `WebContainerService` runtime lifecycle manager,
* the `FileSystemService` virtual file tree,
* the `AIService` streaming-response parser and application pipeline.

Conventions: JavaScript `Date.now()` timestamps are `Nat`; promise-based
asynchronous code is embedded as explicit state passing over the service's
fields, with the single-threaded cooperative scheduling of the JS event
loop made explicit (a synchronous segment of an `async` method is one
atomic step); exceptions are `Except`/`Option`.
-/

set_option autoImplicit false

namespace CodeFrame

/-! ## Circuit breaker (src retry utility, `class CircuitBreaker`)

The TS enum `CircuitState { CLOSED, OPEN, HALF_OPEN }`.  `OPEN` is rendered
`opened` because `open` is a Lean keyword. -/

inductive CircuitState where
  | closed
  | opened
  | halfOpen
deriving DecidableEq, Repr

/-- Options of the TS `CircuitBreaker` constructor (after defaulting). -/
structure CircuitBreakerOptions where
  failureThreshold : Nat
  resetTimeout : Nat
deriving DecidableEq, Repr

/-- The mutable fields of the TS `CircuitBreaker` instance. -/
structure CircuitBreakerState where
  state : CircuitState
  failures : Nat
  lastFailureTime : Nat
  successCount : Nat
deriving DecidableEq, Repr

/-- Field initialisers of `class CircuitBreaker`:
`state = CLOSED`, `failures = 0`, `lastFailureTime = 0`, `successCount = 0`. -/
def CircuitBreakerState.initial : CircuitBreakerState :=
  { state := .closed, failures := 0, lastFailureTime := 0, successCount := 0 }

/-- The entry gate of `CircuitBreaker.execute`: when the state is `OPEN`,
either transition to `HALF_OPEN` (when `Date.now() - lastFailureTime >
resetTimeout`, resetting `successCount`) or reject (`none`, which the
caller turns into the `"Circuit breaker is OPEN"` error). -/
def cbGate (opts : CircuitBreakerOptions) (s : CircuitBreakerState) (now : Nat) :
    Option CircuitBreakerState :=
  if s.state = .opened then
    if now - s.lastFailureTime > opts.resetTimeout then
      some { s with state := .halfOpen, successCount := 0 }
    else
      none
  else
    some s

/-- The success branch of `CircuitBreaker.execute`: in `HALF_OPEN`,
increment `successCount` and close the circuit (also resetting `failures`)
once it reaches 3 (the literal `3` is hard-coded in the source). -/
def cbAfterSuccess (s : CircuitBreakerState) : CircuitBreakerState :=
  if s.state = .halfOpen then
    if 3 ≤ s.successCount + 1 then
      { s with state := .closed, failures := 0, successCount := s.successCount + 1 }
    else
      { s with successCount := s.successCount + 1 }
  else s

/-- The catch branch of `CircuitBreaker.execute`: increment `failures`,
record `lastFailureTime = Date.now()`, and open the circuit once
`failures ≥ failureThreshold` (with the incremented counter). -/
def cbAfterFailure (opts : CircuitBreakerOptions) (s : CircuitBreakerState) (now : Nat) :
    CircuitBreakerState :=
  if opts.failureThreshold ≤ s.failures + 1 then
    { s with failures := s.failures + 1, lastFailureTime := now, state := .opened }
  else
    { s with failures := s.failures + 1, lastFailureTime := now }

/-- Result tag of one `execute` call. -/
inductive ExecResult where
  | success
  | opFailure
  | circuitOpenError
deriving DecidableEq, Repr

/-- One `CircuitBreaker.execute(fn)` call: `result` is what the caller
observes, `invoked` records whether the wrapped `fn` was invoked at all,
`state` is the breaker state afterwards.  `opSucceeds` is the outcome the
wrapped operation would have at this call. -/
structure ExecStep where
  result : ExecResult
  invoked : Bool
  state : CircuitBreakerState
deriving DecidableEq, Repr

def CircuitBreaker.execute (opts : CircuitBreakerOptions) (s : CircuitBreakerState)
    (now : Nat) (opSucceeds : Bool) : ExecStep :=
  match cbGate opts s now with
  | none => ⟨.circuitOpenError, false, s⟩
  | some s1 =>
      if opSucceeds then ⟨.success, true, cbAfterSuccess s1⟩
      else ⟨.opFailure, true, cbAfterFailure opts s1 now⟩

/-- Folding a sequence of `execute` calls (each a timestamp paired with
the wrapped operation's outcome) over the breaker state. -/
def runCB (opts : CircuitBreakerOptions) (s : CircuitBreakerState)
    (events : List (Nat × Bool)) : CircuitBreakerState :=
  events.foldl (fun st e => (CircuitBreaker.execute opts st e.1 e.2).state) s

/-! ### Circuit breaker lemmas -/

/-- In the `CLOSED` state, a failing call goes through the gate and lands in
the catch branch. -/
lemma execute_closed_fail (opts : CircuitBreakerOptions) (s : CircuitBreakerState)
    (now : Nat) (h : s.state = .closed) :
    CircuitBreaker.execute opts s now false = ⟨.opFailure, true, cbAfterFailure opts s now⟩ := by
  simp [CircuitBreaker.execute, cbGate, h]

/-- Unfolding one step of `runCB`. -/
lemma runCB_cons (opts : CircuitBreakerOptions) (s : CircuitBreakerState)
    (e : Nat × Bool) (es : List (Nat × Bool)) :
    runCB opts s (e :: es) = runCB opts (CircuitBreaker.execute opts s e.1 e.2).state es := rfl

lemma runCB_nil (opts : CircuitBreakerOptions) (s : CircuitBreakerState) :
    runCB opts s [] = s := rfl

/-- One failing call in a closed state below the threshold: still closed,
failure counter incremented. -/
lemma step_closed_fail_below (opts : CircuitBreakerOptions) (s : CircuitBreakerState)
    (t : Nat) (hs : s.state = .closed) (hnot : ¬ opts.failureThreshold ≤ s.failures + 1) :
    (CircuitBreaker.execute opts s t false).state =
      { s with failures := s.failures + 1, lastFailureTime := t } := by
  rw [execute_closed_fail opts s t hs]
  show cbAfterFailure opts s t = _
  rw [cbAfterFailure, if_neg hnot]

/-- Consecutive failures from a closed state, while strictly below the
threshold, accumulate in `failures` and leave the circuit closed. -/
lemma runCB_closed_fail_below (opts : CircuitBreakerOptions) :
    ∀ (ts : List Nat) (s : CircuitBreakerState), s.state = .closed →
      s.failures + ts.length < opts.failureThreshold →
      (runCB opts s (ts.map fun t => (t, false))).state = .closed ∧
      (runCB opts s (ts.map fun t => (t, false))).failures = s.failures + ts.length := by
  intro ts
  induction ts with
  | nil => intro s hs _; exact ⟨hs, by simp [runCB_nil]⟩
  | cons t ts ih =>
      intro s hs hlt
      simp only [List.length_cons] at hlt
      have hnot : ¬ opts.failureThreshold ≤ s.failures + 1 := by omega
      rw [List.map_cons, runCB_cons]
      rw [step_closed_fail_below opts s t hs hnot]
      have h2 := ih { s with failures := s.failures + 1, lastFailureTime := t } hs
        (show s.failures + 1 + ts.length < opts.failureThreshold by omega)
      have h2f : (runCB opts { s with failures := s.failures + 1, lastFailureTime := t }
          (ts.map fun t => (t, false))).failures = s.failures + 1 + ts.length := h2.2
      exact ⟨h2.1, by rw [h2f]; simp only [List.length_cons]; omega⟩

/-- Consecutive failures from a closed state that exactly reach the
threshold open the circuit. -/
lemma runCB_closed_fail_reach (opts : CircuitBreakerOptions) :
    ∀ (ts : List Nat) (s : CircuitBreakerState), s.state = .closed → ts ≠ [] →
      s.failures + ts.length = opts.failureThreshold →
      (runCB opts s (ts.map fun t => (t, false))).state = .opened := by
  intro ts
  induction ts with
  | nil => intro s _ hne _; exact absurd rfl hne
  | cons t ts ih =>
      intro s hs _ heq
      simp only [List.length_cons] at heq
      cases ts with
      | nil =>
          simp only [List.length_nil] at heq
          have hth : opts.failureThreshold ≤ s.failures + 1 := by omega
          rw [List.map_cons, runCB_cons, List.map_nil, runCB_nil]
          rw [execute_closed_fail opts s t hs]
          show (cbAfterFailure opts s t).state = _
          rw [cbAfterFailure, if_pos hth]
      | cons t' ts' =>
          simp only [List.length_cons] at heq
          have hnot : ¬ opts.failureThreshold ≤ s.failures + 1 := by omega
          rw [List.map_cons, runCB_cons]
          rw [step_closed_fail_below opts s t hs hnot]
          exact ih { s with failures := s.failures + 1, lastFailureTime := t } hs
            (by simp) (by simp only [List.length_cons]; omega)

/-- While `OPEN` and before `resetTimeout` has elapsed, `execute` rejects
immediately: the wrapped operation is not invoked and the state is
unchanged. -/
lemma execute_open_rejects (opts : CircuitBreakerOptions) (s : CircuitBreakerState)
    (now : Nat) (b : Bool) (h : s.state = .opened)
    (ht : now - s.lastFailureTime ≤ opts.resetTimeout) :
    CircuitBreaker.execute opts s now b = ⟨.circuitOpenError, false, s⟩ := by
  simp [CircuitBreaker.execute, cbGate, h, Nat.not_lt.mpr ht]

/-- Once strictly more than `resetTimeout` has elapsed since the last
failure, the next call goes through the gate in the `HALF_OPEN` state: the
wrapped operation is invoked, a success leaves the breaker half-open (one
success out of the three required), and a failure with the failure counter
at or above the threshold reopens it. -/
lemma execute_open_elapsed (opts : CircuitBreakerOptions) (s : CircuitBreakerState)
    (now : Nat) (b : Bool) (h : s.state = .opened)
    (ht : opts.resetTimeout < now - s.lastFailureTime) :
    (CircuitBreaker.execute opts s now b).invoked = true ∧
    (b = true → (CircuitBreaker.execute opts s now b).state.state = .halfOpen) ∧
    (b = false → opts.failureThreshold ≤ s.failures →
      (CircuitBreaker.execute opts s now b).state.state = .opened) := by
  have hgate : cbGate opts s now = some { s with state := .halfOpen, successCount := 0 } := by
    simp [cbGate, h, ht]
  refine ⟨?_, ?_, ?_⟩
  · cases b <;> simp [CircuitBreaker.execute, hgate]
  · intro hb; subst hb
    simp [CircuitBreaker.execute, hgate, cbAfterSuccess]
  · intro hb hf; subst hb
    have : opts.failureThreshold ≤ s.failures + 1 := Nat.le_succ_of_le hf
    simp [CircuitBreaker.execute, hgate, cbAfterFailure, this]

/-- Three consecutive successful calls from a half-open state (with a
fresh success counter, as produced by the gate) close the circuit. -/
lemma halfOpen_three_successes (opts : CircuitBreakerOptions) (s : CircuitBreakerState)
    (t1 t2 t3 : Nat) (h : s.state = .halfOpen) (hsc : s.successCount = 0) :
    (runCB opts s [(t1, true), (t2, true), (t3, true)]).state = .closed := by
  obtain ⟨st, f, l, sc⟩ := s
  simp only [CircuitBreakerState.state] at h
  simp only [CircuitBreakerState.successCount] at hsc
  subst h; subst hsc
  simp [runCB, CircuitBreaker.execute, cbGate, cbAfterSuccess]

/-- Invariant: whenever the breaker is `OPEN` or `HALF_OPEN`, the failure
counter is at or above the threshold (it is only reset when the circuit
closes). -/
def cbInv (opts : CircuitBreakerOptions) (s : CircuitBreakerState) : Prop :=
  (s.state = .opened ∨ s.state = .halfOpen) → opts.failureThreshold ≤ s.failures

/-- Reducing `execute` when the gate rejects. -/
lemma execute_gate_none (opts : CircuitBreakerOptions) (s : CircuitBreakerState)
    (now : Nat) (b : Bool) (hg : cbGate opts s now = none) :
    CircuitBreaker.execute opts s now b = ⟨.circuitOpenError, false, s⟩ := by
  simp [CircuitBreaker.execute, hg]

/-- Reducing `execute` when the gate lets the call through with state `s1`. -/
lemma execute_gate_some (opts : CircuitBreakerOptions) (s s1 : CircuitBreakerState)
    (now : Nat) (b : Bool) (hg : cbGate opts s now = some s1) :
    CircuitBreaker.execute opts s now b =
      if b then ⟨.success, true, cbAfterSuccess s1⟩
      else ⟨.opFailure, true, cbAfterFailure opts s1 now⟩ := by
  simp only [CircuitBreaker.execute, hg]

lemma execute_preserves_cbInv (opts : CircuitBreakerOptions) (s : CircuitBreakerState)
    (now : Nat) (b : Bool) (h : cbInv opts s) :
    cbInv opts (CircuitBreaker.execute opts s now b).state := by
  rcases hg : cbGate opts s now with _ | s1
  · rw [execute_gate_none opts s now b hg]; exact h
  · have hs1 : cbInv opts s1 := by
      unfold cbGate at hg
      split at hg
      case isTrue hst =>
        split at hg
        case isTrue => cases hg; intro _; exact h (Or.inl hst)
        case isFalse => cases hg
      case isFalse => cases hg; exact h
    rw [execute_gate_some opts s s1 now b hg]
    cases b
    · show cbInv opts (cbAfterFailure opts s1 now)
      intro hcase
      rw [cbAfterFailure] at hcase ⊢
      by_cases hth : opts.failureThreshold ≤ s1.failures + 1
      · rw [if_pos hth]
        exact hth
      · rw [if_neg hth] at hcase ⊢
        exact Nat.le_succ_of_le (hs1 hcase)
    · show cbInv opts (cbAfterSuccess s1)
      intro hcase
      rw [cbAfterSuccess] at hcase ⊢
      by_cases hho : s1.state = .halfOpen
      · rw [if_pos hho] at hcase ⊢
        by_cases h3 : 3 ≤ s1.successCount + 1
        · rw [if_pos h3] at hcase
          exact absurd hcase (by simp)
        · rw [if_neg h3] at hcase ⊢
          exact hs1 (Or.inr hho)
      · rw [if_neg hho] at hcase ⊢
        exact hs1 hcase

/-- The invariant holds in every state reachable from the initial breaker
state. -/
lemma runCB_cbInv (opts : CircuitBreakerOptions) (events : List (Nat × Bool)) :
    cbInv opts (runCB opts .initial events) := by
  suffices h : ∀ (es : List (Nat × Bool)) (s : CircuitBreakerState),
      cbInv opts s → cbInv opts (runCB opts s es) by
    refine h events .initial ?_
    intro hcase
    simp [CircuitBreakerState.initial] at hcase
  intro es
  induction es with
  | nil => intro s hs; simpa [runCB] using hs
  | cons e es ih =>
      intro s hs
      have : runCB opts s (e :: es) =
          runCB opts (CircuitBreaker.execute opts s e.1 e.2).state es := by
        simp [runCB]
      rw [this]
      exact ih _ (execute_preserves_cbInv opts s e.1 e.2 hs)

/-- A failing call in a reachable half-open state reopens the circuit
immediately (the failure counter is still at or above the threshold). -/
lemma execute_halfOpen_fail_reopens (opts : CircuitBreakerOptions) (s : CircuitBreakerState)
    (now : Nat) (h : s.state = .halfOpen) (hf : opts.failureThreshold ≤ s.failures) :
    (CircuitBreaker.execute opts s now false).state.state = .opened := by
  have hgate : cbGate opts s now = some s := by
    rw [cbGate, if_neg (by simp [h])]
  rw [execute_gate_some opts s s now false hgate]
  show (cbAfterFailure opts s now).state = _
  rw [cbAfterFailure, if_pos (Nat.le_succ_of_le hf)]

/-- **C1.** The circuit breaker wrapping an operation: starting in the
closed state it opens after exactly `failureThreshold` consecutive
failures of the wrapped operation (and stays closed strictly below the
threshold); while open and before `resetTimeout` has elapsed since the
last failure, every `execute` call is rejected immediately with the
"circuit open" error, without invoking the wrapped operation and without
changing the breaker state; once `resetTimeout` has elapsed since the last
failure, the next call is allowed through in the half-open state; three
consecutive successes while half-open return the breaker to closed; and
any failure while half-open (in a state reachable from the initial one)
reopens the circuit immediately. -/
theorem circuitBreaker_lifecycle (opts : CircuitBreakerOptions)
    (hth : 1 ≤ opts.failureThreshold) :
    (∀ ts : List Nat, ts.length < opts.failureThreshold →
      (runCB opts .initial (ts.map fun t => (t, false))).state = .closed) ∧
    (∀ ts : List Nat, ts.length = opts.failureThreshold →
      (runCB opts .initial (ts.map fun t => (t, false))).state = .opened) ∧
    (∀ (s : CircuitBreakerState) (now : Nat) (b : Bool), s.state = .opened →
      now - s.lastFailureTime ≤ opts.resetTimeout →
      CircuitBreaker.execute opts s now b = ⟨.circuitOpenError, false, s⟩) ∧
    (∀ (s : CircuitBreakerState) (now : Nat) (b : Bool), s.state = .opened →
      opts.resetTimeout < now - s.lastFailureTime →
      (CircuitBreaker.execute opts s now b).invoked = true ∧
      (b = true → (CircuitBreaker.execute opts s now b).state.state = .halfOpen)) ∧
    (∀ (s : CircuitBreakerState) (t1 t2 t3 : Nat), s.state = .halfOpen →
      s.successCount = 0 →
      (runCB opts s [(t1, true), (t2, true), (t3, true)]).state = .closed) ∧
    (∀ (events : List (Nat × Bool)) (now : Nat),
      (runCB opts .initial events).state = .halfOpen →
      (CircuitBreaker.execute opts (runCB opts .initial events) now false).state.state =
        .opened) := by
  refine ⟨?_, ?_, ?_, ?_, ?_, ?_⟩
  · intro ts hlen
    exact (runCB_closed_fail_below opts ts .initial rfl (by simpa [CircuitBreakerState.initial] using hlen)).1
  · intro ts hlen
    refine runCB_closed_fail_reach opts ts .initial rfl ?_ (by simpa [CircuitBreakerState.initial] using hlen)
    intro hnil
    rw [hnil] at hlen
    simp at hlen
    omega
  · intro s now b hs ht
    exact execute_open_rejects opts s now b hs ht
  · intro s now b hs ht
    exact ⟨(execute_open_elapsed opts s now b hs ht).1,
      (execute_open_elapsed opts s now b hs ht).2.1⟩
  · intro s t1 t2 t3 hs hsc
    exact halfOpen_three_successes opts s t1 t2 t3 hs hsc
  · intro events now hs
    exact execute_halfOpen_fail_reopens opts _ now hs
      (runCB_cbInv opts events (Or.inr hs))

/-- Witness for C1 at the concrete options the runtime manager uses
(`failureThreshold = 3`, `resetTimeout = 60000`): three consecutive
failures from the initial state open the circuit. -/
theorem circuitBreaker_lifecycle_witness :
    1 ≤ (3 : Nat) ∧
      (runCB ⟨3, 60000⟩ .initial ([10, 20, 30].map fun t => (t, false))).state = .opened :=
  ⟨by decide, ((circuitBreaker_lifecycle ⟨3, 60000⟩ (by decide)).2.1) [10, 20, 30] rfl⟩

/-! ## Virtual file tree (src `FileSystemService`)

`FileSystemNode` is the TS tagged union File | Folder.  The `type` string
discriminator of the source becomes the constructor. -/

inductive FileSystemNode where
  | file (name : String) (content : String) (language : String) (path : String)
  | folder (name : String) (children : List FileSystemNode) (path : String)
deriving Repr

/-- The `name` field, common to both variants. -/
def FileSystemNode.name : FileSystemNode → String
  | .file n _ _ _ => n
  | .folder n _ _ => n

/-- The TS `node.type === "folder"` check. -/
def FileSystemNode.isFolder : FileSystemNode → Bool
  | .file _ _ _ _ => false
  | .folder _ _ _ => true

/-- Children of a folder (a file has none). -/
def FileSystemNode.children : FileSystemNode → List FileSystemNode
  | .file _ _ _ _ => []
  | .folder _ cs _ => cs

/-- Replace the children of a folder in place (used when the source
mutates `current.children` of a found folder). -/
def FileSystemNode.withChildren : FileSystemNode → List FileSystemNode → FileSystemNode
  | .file n c l p, _ => .file n c l p
  | .folder n _ p, cs => .folder n cs p

/-- JS `String.prototype.split` with a single-character separator, spelled
out over the character list so that it evaluates inside the kernel. -/
def splitOnCharAux (sep : Char) : List Char → List Char → List (List Char)
  | [], acc => [acc.reverse]
  | c :: cs, acc =>
      if c = sep then acc.reverse :: splitOnCharAux sep cs []
      else splitOnCharAux sep cs (c :: acc)

def splitOnChar (s : String) (sep : Char) : List String :=
  (splitOnCharAux sep s.toList []).map (fun l => l.asString)

/-- JS `String.prototype.toLowerCase` (the embedding only needs ASCII). -/
def strToLower (s : String) : String :=
  (s.toList.map Char.toLower).asString

/-- JS `String.prototype.includes`: substring containment. -/
def strIncludesAux (needle : List Char) : List Char → Bool
  | [] => needle.isPrefixOf []
  | c :: t => needle.isPrefixOf (c :: t) || strIncludesAux needle t

def strIncludes (s sub : String) : Bool :=
  strIncludesAux sub.toList s.toList

/-- JS `path.split("/").filter(Boolean)`: empty segments are falsy and
dropped. -/
def splitPath (path : String) : List String :=
  (splitOnChar path '/').filter (fun s => s ≠ "")

/-- The TS `FileOperation` variant tag. -/
inductive FileOpType where
  | create
  | update
  | delete
  | rename
deriving DecidableEq, Repr

/-- The TS `FileOperation` record. -/
structure FileOperation where
  type : FileOpType
  path : String
  content : Option String := none
  newPath : Option String := none
deriving Repr

/-- `FileSystemService.getLanguageFromExtension`: map the final
`.`-separated component of the file name through a fixed table. -/
def getLanguageFromExtension (fileName : String) : String :=
  let ext := strToLower ((splitOnChar fileName '.').getLastD "")
  match ext with
  | "ts" => "typescript"
  | "tsx" => "typescript"
  | "js" => "javascript"
  | "jsx" => "javascript"
  | "json" => "json"
  | "css" => "css"
  | "html" => "html"
  | "md" => "markdown"
  | _ => "plaintext"

/-- `FileSystemService.findNode`, inner loop: walk the remaining path
segments from a current node; at each folder take the first child whose
`name` matches the segment (`children.find`), return `none` if the segment
is missing or the current node is a file. -/
def findNodeAux : List String → FileSystemNode → Option FileSystemNode
  | [], n => some n
  | part :: rest, .folder _ children _ =>
      match children.find? (fun c => c.name == part) with
      | none => none
      | some c => findNodeAux rest c
  | _ :: _, .file _ _ _ _ => none

/-- `FileSystemService.findNode(path)`: split the path and walk from the
root of the in-memory tree. -/
def FileSystemService.findNode (root : FileSystemNode) (path : String) :
    Option FileSystemNode :=
  findNodeAux (splitPath path) root

/-- One level of `FileSystemService.addNodeToTree`'s descent: look for the
first folder child named `part`; descend into it with `recurse` if found,
else create it (with children produced by `recurse` on the empty list, as
the source's loop continues inside the freshly pushed folder). -/
def addNodeScan (part : String) (recurse : List FileSystemNode → List FileSystemNode)
    (newPath : String) : List FileSystemNode → List FileSystemNode
  | [] => [.folder part (recurse []) newPath]
  | c :: cs =>
      if c.isFolder && c.name == part then c.withChildren (recurse c.children) :: cs
      else c :: addNodeScan part recurse newPath cs

/-- `FileSystemService.addNodeToTree`, descent: `parts` are the directory
segments still to walk, `allParts` the full directory-segment list (the
source computes a created folder's `path` as
`parts.slice(0, parts.indexOf(part) + 1).join("/")`, i.e. from the FIRST
occurrence of the segment name in the full list), `nodeName` the popped
final segment and `node` the node to insert.  At the final folder, any
existing child with the popped name is removed and the node appended. -/
def addNodeGo (nodeName : String) (node : FileSystemNode) (allParts : List String) :
    List String → List FileSystemNode → List FileSystemNode
  | [], children => children.filter (fun c => c.name ≠ nodeName) ++ [node]
  | part :: rest, children =>
      addNodeScan part (fun ch => addNodeGo nodeName node allParts rest ch)
        (String.intercalate "/" (allParts.take (allParts.indexOf part + 1))) children

/-- `FileSystemService.addNodeToTree(path, node)` acting on the root's
children.  An empty segment list (degenerate `path`) appends the node at
the root, matching the source where the popped name is `undefined` and the
name filter removes nothing. -/
def addNodeToTree (path : String) (node : FileSystemNode)
    (rootChildren : List FileSystemNode) : List FileSystemNode :=
  let parts := splitPath path
  match parts.getLast? with
  | none => rootChildren ++ [node]
  | some nodeName => addNodeGo nodeName node parts.dropLast parts.dropLast rootChildren

/-- One level of `removeNodeFromTree`'s descent: update the first folder
child named `part` with `recurse`; if none exists the source returns early
and the tree is unchanged. -/
def removeNodeScan (part : String) (recurse : List FileSystemNode → List FileSystemNode) :
    List FileSystemNode → List FileSystemNode
  | [] => []
  | c :: cs =>
      if c.isFolder && c.name == part then c.withChildren (recurse c.children) :: cs
      else c :: removeNodeScan part recurse cs

/-- `FileSystemService.removeNodeFromTree`, descent: walk the directory
segments through existing folders (`c.type === "folder" && c.name ===
part`); if a segment is missing, return unchanged; at the final folder
remove any child with the popped name. -/
def removeNodeGo (nodeName : String) :
    List String → List FileSystemNode → List FileSystemNode
  | [], children => children.filter (fun c => c.name ≠ nodeName)
  | part :: rest, children =>
      removeNodeScan part (fun ch => removeNodeGo nodeName rest ch) children

/-- `FileSystemService.removeNodeFromTree(path)` on the root's children.
A degenerate empty segment list removes nothing (popped name
`undefined`). -/
def removeNodeFromTree (path : String) (rootChildren : List FileSystemNode) :
    List FileSystemNode :=
  let parts := splitPath path
  if parts.isEmpty then rootChildren
  else removeNodeGo (parts.getLast!) parts.dropLast rootChildren

/-! ### Sandbox filesystem

The WebContainer virtual filesystem is external to the repository
(`@webcontainer/api`); it is modelled with standard POSIX-like semantics:
`writeFile` creates or overwrites, `mkdir` on an existing directory fails
(the service ignores that failure), `rm` of a missing path fails with
ENOENT.  Files are an association list path → content kept in a canonical
form (the binding for a written path is moved to the end). -/

structure Sandbox where
  files : List (String × String)
  dirs : List String
deriving DecidableEq, Repr

def Sandbox.writeFile (sb : Sandbox) (path content : String) : Sandbox :=
  { sb with files := sb.files.filter (fun kv => kv.1 ≠ path) ++ [(path, content)] }

def Sandbox.readFile? (sb : Sandbox) (path : String) : Option String :=
  (sb.files.find? (fun kv => kv.1 == path)).map Prod.snd

/-- `mkdir` with the "already exists" error ignored, as in
`ensureDirectory`'s try/catch. -/
def Sandbox.mkdirIgnoringExisting (sb : Sandbox) (path : String) : Sandbox :=
  if path ∈ sb.dirs then sb else { sb with dirs := sb.dirs ++ [path] }

/-- Is `p` equal to `root` or strictly inside it? -/
def pathIsUnder (p root : String) : Bool :=
  p == root || (root ++ "/").toList.isPrefixOf p.toList

/-- `fs.rm(path)` (non-recursive): removes a single file, ENOENT if
absent. -/
def Sandbox.rmFile (sb : Sandbox) (path : String) : Except String Sandbox :=
  if sb.files.any (fun kv => kv.1 == path) then
    .ok { sb with files := sb.files.filter (fun kv => kv.1 ≠ path) }
  else .error "ENOENT"

/-- `fs.rm(path, { recursive: true })`: removes a directory and everything
under it, ENOENT if nothing is there. -/
def Sandbox.rmRecursive (sb : Sandbox) (path : String) : Except String Sandbox :=
  if path ∈ sb.dirs || sb.files.any (fun kv => pathIsUnder kv.1 path) then
    .ok { files := sb.files.filter (fun kv => ¬ pathIsUnder kv.1 path),
          dirs := sb.dirs.filter (fun d => ¬ pathIsUnder d path) }
  else .error "ENOENT"

/-- `FileSystemService.ensureDirectory`: create every prefix of the
directory path in turn, ignoring "already exists" errors; no-op on the
empty path. -/
def ensureDirectory (sb : Sandbox) (path : String) : Sandbox :=
  if path = "" then sb
  else
    let parts := splitPath path
    (List.range parts.length).foldl
      (fun acc i => acc.mkdirIgnoringExisting (String.intercalate "/" (parts.take (i + 1))))
      sb

/-! ### The service state and its operations

The service's in-memory tree is the root folder
`{ name: "root", children, path: "" }`; only its `children` vary. -/

structure FSState where
  rootChildren : List FileSystemNode
  sandbox : Sandbox
deriving Repr

/-- The root `FolderNode` of the service. -/
def FSState.root (st : FSState) : FileSystemNode :=
  .folder "root" st.rootChildren ""

/-- Outcome of one service operation: `ok = false` means the TS method
threw (after emitting the `"error"` event from its catch block); `events`
are the event names emitted during the call, in order. -/
structure OpResult where
  ok : Bool
  state : FSState
  events : List String
deriving Repr

/-- `FileSystemService.createFile(path, content)`: ensure the directory
chain, write the file into the sandbox, build the `FileNode` and insert it
into the in-memory tree, then emit `"file:created"`.  A degenerate path
with no segments makes the source dereference an `undefined` file name and
throw (caught: `"error"` emitted, rethrown). -/
def FileSystemService.createFile (st : FSState) (path content : String) : OpResult :=
  let parts := splitPath path
  match parts.getLast? with
  | none => ⟨false, st, ["error"]⟩
  | some fileName =>
      let dirPath := String.intercalate "/" parts.dropLast
      let sb1 := ensureDirectory st.sandbox dirPath
      let sb2 := sb1.writeFile path content
      let fileNode : FileSystemNode :=
        .file fileName content (getLanguageFromExtension fileName) path
      ⟨true, { rootChildren := addNodeToTree path fileNode st.rootChildren, sandbox := sb2 },
        ["file:created"]⟩

/-- `FileSystemService.readFile(path)`: read from the sandbox
(authoritative), not the cached tree. -/
def FileSystemService.readFileOp (st : FSState) (path : String) : Except String String :=
  match st.sandbox.readFile? path with
  | some c => .ok c
  | none => .error "ENOENT"

/-- Replace the first child satisfying `p` with `f` of it (the effect of
mutating the object `children.find` returned). -/
def replaceFirstChild (p : FileSystemNode → Bool) (f : FileSystemNode → FileSystemNode) :
    List FileSystemNode → List FileSystemNode
  | [] => []
  | c :: cs => if p c then f c :: cs else c :: replaceFirstChild p f cs

/-- Tree effect of `FileSystemService.updateFile`: the source mutates the
node returned by `findNode` in place (`file.content = content`), which
updates the tree exactly at the first-match path `findNode` walked, and
only when that node is a file. -/
def updateContentNode (content : String) :
    List String → FileSystemNode → FileSystemNode
  | [], .file nm _ l p => .file nm content l p
  | [], .folder nm cs p => .folder nm cs p
  | part :: rest, .folder nm cs p =>
      .folder nm (replaceFirstChild (fun c => c.name == part)
        (fun c => updateContentNode content rest c) cs) p
  | _ :: _, .file nm c l p => .file nm c l p

/-- `FileSystemService.updateFile(path, content)`: write to the sandbox,
then update the cached node's content if `findNode` finds a file there
(emitting `"file:updated"`). -/
def FileSystemService.updateFile (st : FSState) (path content : String) : OpResult :=
  let sb' := st.sandbox.writeFile path content
  let root' := updateContentNode content (splitPath path) (FSState.root st)
  match FileSystemService.findNode (FSState.root st) path with
  | some (.file _ _ _ _) =>
      ⟨true, { rootChildren := root'.children, sandbox := sb' }, ["file:updated"]⟩
  | _ => ⟨true, { st with sandbox := sb' }, []⟩

/-- Tail of `FileSystemService.delete(path)`: on a successful sandbox
removal, prune the in-memory tree and emit `"deleted"`; a removal error is
caught (`"error"` emitted, rethrown) before any tree mutation. -/
def deleteFinish (st : FSState) (path : String) : Except String Sandbox → OpResult
  | .error _ => ⟨false, st, ["error"]⟩
  | .ok sb' =>
      ⟨true, { rootChildren := removeNodeFromTree path st.rootChildren, sandbox := sb' },
        ["deleted"]⟩

/-- `FileSystemService.delete(path)`: remove recursively when the cached
node is a folder, else remove the single file, then prune the in-memory
tree and emit `"deleted"`. -/
def FileSystemService.deleteOp (st : FSState) (path : String) : OpResult :=
  deleteFinish st path
    (match FileSystemService.findNode (FSState.root st) path with
      | some (.folder _ _ _) => st.sandbox.rmRecursive path
      | _ => st.sandbox.rmFile path)

/-- `FileSystemService.rename(oldPath, newPath)`: for a file, read the old
content, create at the new path, delete the old; a missing node or a
folder throws.  Each catch layer on the way out emits `"error"`. -/
def FileSystemService.renameOp (st : FSState) (oldPath newPath : String) : OpResult :=
  match FileSystemService.findNode (FSState.root st) oldPath with
  | none => ⟨false, st, ["error"]⟩
  | some (.folder _ _ _) => ⟨false, st, ["error"]⟩
  | some (.file _ _ _ _) =>
      match FileSystemService.readFileOp st oldPath with
      | .error _ => ⟨false, st, ["error", "error"]⟩
      | .ok content =>
          let r1 := FileSystemService.createFile st newPath content
          if r1.ok then
            let r2 := FileSystemService.deleteOp r1.state oldPath
            if r2.ok then
              ⟨true, r2.state, r1.events ++ r2.events ++ ["renamed"]⟩
            else
              ⟨false, r2.state, r1.events ++ r2.events ++ ["error"]⟩
          else
            ⟨false, r1.state, r1.events ++ ["error"]⟩

/-- One arm of the `switch` in `applyOperations`: `create` and `update`
both call `createFile` (with `op.content || ""`); `rename` is skipped
silently when `newPath` is absent. -/
def applyOp (st : FSState) (op : FileOperation) : OpResult :=
  match op.type with
  | .create => FileSystemService.createFile st op.path (op.content.getD "")
  | .update => FileSystemService.createFile st op.path (op.content.getD "")
  | .delete => FileSystemService.deleteOp st op.path
  | .rename =>
      match op.newPath with
      | some np => FileSystemService.renameOp st op.path np
      | none => ⟨true, st, []⟩

/-- The per-file events suppressed while a batch is being applied (the
source monkey-patches `emit` for exactly these three names). -/
def suppressedEvent (e : String) : Bool :=
  e == "file:created" || e == "file:updated" || e == "file:deleted"

/-- The `for (const op of operations)` loop of `applyOperations`: each
operation's failure is caught (logged to the console, not emitted) and the
loop continues with the state the operation left behind; events are
filtered by the suppression patch and concatenated in order. -/
def applyOpsLoop (st : FSState) : List FileOperation → FSState × List String
  | [] => (st, [])
  | op :: ops =>
      let r := applyOp st op
      let rest := applyOpsLoop r.state ops
      (rest.1, r.events.filter (fun e => !suppressedEvent e) ++ rest.2)

/-- `FileSystemService.applyOperations(operations)`: run the loop, then in
the `finally` block restore `emit` and fire the single aggregate
`"operations:applied"` + `"tree:updated"` pair. -/
def FileSystemService.applyOperations (st : FSState) (ops : List FileOperation) :
    FSState × List String :=
  let r := applyOpsLoop st ops
  (r.1, r.2 ++ ["operations:applied", "tree:updated"])

/-! ### Hand-out semantics: deep copies versus references

`getFileTree` returns `JSON.parse(JSON.stringify(this.fileTree))` — a
fresh object graph, structurally equal to the tree but sharing no object
with it.  `findNode` returns `current`, the very node object stored in the
tree, and `searchFiles` pushes such node objects into its result array.
In the JS heap a node inside the tree is identified by the child-index
path from the root; `Handed` records, for each value the service hands
out, whether it is a fresh copy or a pointer (index path) into the
service's tree. -/

mutual

/-- `JSON.parse(JSON.stringify(node))`: rebuilds the whole node graph out
of fresh objects. -/
def deepCopyNode : FileSystemNode → FileSystemNode
  | .file n c l p => .file n c l p
  | .folder n cs p => .folder n (deepCopyChildren cs) p
termination_by n => sizeOf n

/-- Companion of `deepCopyNode` for child lists. -/
def deepCopyChildren : List FileSystemNode → List FileSystemNode
  | [] => []
  | c :: cs => deepCopyNode c :: deepCopyChildren cs
termination_by cs => sizeOf cs

end

/-- `FileSystemService.getFileTree()`: a deep copy of the tree. -/
def FileSystemService.getFileTree (st : FSState) : FileSystemNode :=
  deepCopyNode (FSState.root st)

/-- A value handed out by a service API, with its aliasing status. -/
inductive Handed where
  | copy (v : FileSystemNode)
  | ref (r : List Nat) (v : FileSystemNode)
deriving Repr

/-- `getFileTree` under hand-out semantics: a fresh copy, no pointer. -/
def FileSystemService.getFileTreeH (st : FSState) : Handed :=
  .copy (deepCopyNode (FSState.root st))

/-- `children.find(c => c.name === part)` together with the index at which
the first match sits (`k` is the index of the head of `cs`). -/
def findChildIdx (part : String) : List FileSystemNode → Nat → Option (Nat × FileSystemNode)
  | [], _ => none
  | c :: cs, k => if c.name == part then some (k, c) else findChildIdx part cs (k + 1)

/-- `findNode`'s walk, recording the index path of the returned node
object inside the tree. -/
def findNodeHAux : List String → FileSystemNode → List Nat → Option (List Nat × FileSystemNode)
  | [], n, acc => some (acc, n)
  | part :: rest, .folder _ cs _, acc =>
      match findChildIdx part cs 0 with
      | none => none
      | some (i, c) => findNodeHAux rest c (acc ++ [i])
  | _ :: _, .file _ _ _ _, _ => none

/-- `FileSystemService.findNode(path)` under hand-out semantics: the
returned node is a pointer to the node object at the walked index path. -/
def FileSystemService.findNodeH (root : FileSystemNode) (path : String) : Option Handed :=
  (findNodeHAux (splitPath path) root []).map (fun rv => .ref rv.1 rv.2)

/-- Subtree of a tree at a child-index path. -/
def getAtIdx : FileSystemNode → List Nat → Option FileSystemNode
  | n, [] => some n
  | .folder _ cs _, i :: r =>
      match cs.get? i with
      | some c => getAtIdx c r
      | none => none
  | .file _ _ _ _, _ :: _ => none

/-- Apply `g` to the `i`-th element of a child list. -/
def setChildAt (g : FileSystemNode → FileSystemNode) :
    Nat → List FileSystemNode → List FileSystemNode
  | _, [] => []
  | 0, c :: cs => g c :: cs
  | i + 1, c :: cs => c :: setChildAt g i cs

/-- In-place update of the node object at a child-index path: the effect,
on the tree, of a caller writing through a handed-out node pointer
(exactly what `updateFile` does with `file.content = content`). -/
def updateAtIdx (f : FileSystemNode → FileSystemNode) : FileSystemNode → List Nat → FileSystemNode
  | n, [] => f n
  | .file a b c d, _ :: _ => .file a b c d
  | .folder nm cs p, i :: r => .folder nm (setChildAt (fun c => updateAtIdx f c r) i cs) p

/-- The service's tree after a consumer mutates a handed-out value with
`f`: a mutation through a `ref` lands inside the tree, a mutation of a
`copy` does not touch it. -/
def treeAfterMutation (root : FileSystemNode) (h : Handed)
    (f : FileSystemNode → FileSystemNode) : FileSystemNode :=
  match h with
  | .copy _ => root
  | .ref r _ => updateAtIdx f root r

/-- The match predicate of `searchFiles`: case-insensitive substring of
file name or file content; folders never match. -/
def searchMatches (query : String) : FileSystemNode → Bool
  | .file nm content _ _ =>
      strIncludes (strToLower nm) (strToLower query)
        || strIncludes (strToLower content) (strToLower query)
  | .folder _ _ _ => false

mutual

/-- `searchFiles`'s recursive walk, keeping for each pushed node object
its index path inside the tree (`acc` is the path of the current node). -/
def searchNodeH (query : String) :
    FileSystemNode → List Nat → List (List Nat × FileSystemNode)
  | .file nm c l p, acc =>
      if searchMatches query (.file nm c l p) then [(acc, .file nm c l p)] else []
  | .folder _ cs _, acc => searchChildrenH query cs acc 0
termination_by n _ => sizeOf n

/-- Companion of `searchNodeH` over a child list (`i` the index of the
head). -/
def searchChildrenH (query : String) :
    List FileSystemNode → List Nat → Nat → List (List Nat × FileSystemNode)
  | [], _, _ => []
  | c :: cs, acc, i =>
      searchNodeH query c (acc ++ [i]) ++ searchChildrenH query cs acc (i + 1)
termination_by cs _ _ => sizeOf cs

end

/-- `FileSystemService.searchFiles(query)`: the array of matching file
nodes (the values of the handed-out pointers). -/
def FileSystemService.searchFiles (st : FSState) (query : String) : List FileSystemNode :=
  (searchNodeH query (FSState.root st) []).map Prod.snd

/-! ### Hand-out lemmas -/

/-- Content of the node at an index path, if it is a file. -/
def contentAt (t : FileSystemNode) (r : List Nat) : Option String :=
  match getAtIdx t r with
  | some (.file _ c _ _) => some c
  | _ => none

mutual

/-- The JSON round trip rebuilds an equal tree. -/
theorem deepCopyNode_eq (n : FileSystemNode) : deepCopyNode n = n := by
  match n with
  | .file a b c d => rw [deepCopyNode]
  | .folder nm cs p => rw [deepCopyNode, deepCopyChildren_eq cs]
termination_by sizeOf n

theorem deepCopyChildren_eq (cs : List FileSystemNode) : deepCopyChildren cs = cs := by
  match cs with
  | [] => rw [deepCopyChildren]
  | c :: cs' => rw [deepCopyChildren, deepCopyNode_eq c, deepCopyChildren_eq cs']
termination_by sizeOf cs

end

/-- `findChildIdx` returns the index of a child that is in the list and
matches; the index counts from `k`. -/
lemma findChildIdx_sound (part : String) :
    ∀ (cs : List FileSystemNode) (k i : Nat) (c : FileSystemNode),
      findChildIdx part cs k = some (i, c) →
      ∃ j, i = k + j ∧ cs.get? j = some c := by
  intro cs
  induction cs with
  | nil => intro k i c h; simp [findChildIdx] at h
  | cons x xs ih =>
      intro k i c h
      rw [findChildIdx] at h
      by_cases hx : x.name == part
      · rw [if_pos hx] at h
        simp only [Option.some.injEq, Prod.mk.injEq] at h
        obtain ⟨rfl, rfl⟩ := h
        exact ⟨0, by omega, by simp⟩
      · rw [if_neg hx] at h
        obtain ⟨j, hj, hg⟩ := ih (k + 1) i c h
        exact ⟨j + 1, by omega, by simpa using hg⟩

/-- `findChildIdx` agrees with `children.find` on the returned node. -/
lemma findChildIdx_val (part : String) :
    ∀ (cs : List FileSystemNode) (k : Nat),
      (findChildIdx part cs k).map Prod.snd = cs.find? (fun c => c.name == part) := by
  intro cs
  induction cs with
  | nil => intro k; simp [findChildIdx, List.find?]
  | cons x xs ih =>
      intro k
      rw [findChildIdx, List.find?]
      by_cases hx : x.name == part
      · rw [if_pos hx, hx]; rfl
      · rw [if_neg hx, Bool.of_not_eq_true hx]
        exact ih (k + 1)

/-- The node `findNodeHAux` pairs with an index path really is the subtree
at that path. -/
lemma findNodeHAux_sound :
    ∀ (parts : List String) (n : FileSystemNode) (acc r : List Nat) (v : FileSystemNode),
      findNodeHAux parts n acc = some (r, v) →
      ∃ r', r = acc ++ r' ∧ getAtIdx n r' = some v := by
  intro parts
  induction parts with
  | nil =>
      intro n acc r v h
      rw [findNodeHAux] at h
      simp only [Option.some.injEq, Prod.mk.injEq] at h
      obtain ⟨rfl, rfl⟩ := h
      exact ⟨[], by simp, by rw [getAtIdx]⟩
  | cons part rest ih =>
      intro n acc r v h
      match n with
      | .file a b c d => rw [findNodeHAux] at h; cases h
      | .folder nm cs p =>
          rw [findNodeHAux] at h
          cases hf : findChildIdx part cs 0 with
          | none => rw [hf] at h; cases h
          | some ic =>
              obtain ⟨i, c⟩ := ic
              rw [hf] at h
              obtain ⟨r'', hr, hget⟩ := ih c (acc ++ [i]) r v h
              obtain ⟨j, hj, hgj⟩ := findChildIdx_sound part cs 0 i c hf
              have hij : i = j := by omega
              subst hij
              refine ⟨i :: r'', by simp [hr], ?_⟩
              rw [getAtIdx, hgj]
              exact hget

/-- The hand-out walk agrees with the source-level `findNode` on the
returned value. -/
lemma findNodeHAux_val :
    ∀ (parts : List String) (n : FileSystemNode) (acc : List Nat),
      (findNodeHAux parts n acc).map (fun rv => rv.2) = findNodeAux parts n := by
  intro parts
  induction parts with
  | nil => intro n acc; rw [findNodeHAux, findNodeAux]; rfl
  | cons part rest ih =>
      intro n acc
      match n with
      | .file a b c d => rw [findNodeHAux, findNodeAux]; rfl
      | .folder nm cs p =>
          rw [findNodeHAux, findNodeAux, ← findChildIdx_val part cs 0]
          cases hf : findChildIdx part cs 0 with
          | none => rfl
          | some ic => exact ih ic.2 (acc ++ [ic.1])

/-- Applying `g` at a list index present in the list. -/
lemma setChildAt_get? (g : FileSystemNode → FileSystemNode) :
    ∀ (i : Nat) (cs : List FileSystemNode) (c : FileSystemNode),
      cs.get? i = some c → (setChildAt g i cs).get? i = some (g c) := by
  intro i
  induction i with
  | zero =>
      intro cs c h
      cases cs with
      | nil => cases h
      | cons x xs => simp at h; subst h; rw [setChildAt]; rfl
  | succ i ih =>
      intro cs c h
      cases cs with
      | nil => cases h
      | cons x xs =>
          rw [setChildAt]
          simpa using ih xs c (by simpa using h)

/-- Writing through a pointer at path `r` is visible when reading the same
path. -/
lemma getAtIdx_updateAtIdx (f : FileSystemNode → FileSystemNode) :
    ∀ (r : List Nat) (n v : FileSystemNode), getAtIdx n r = some v →
      getAtIdx (updateAtIdx f n r) r = some (f v) := by
  intro r
  induction r with
  | nil =>
      intro n v h
      rw [getAtIdx] at h
      simp only [Option.some.injEq] at h
      subst h
      rw [updateAtIdx, getAtIdx]
  | cons i r ih =>
      intro n v h
      match n with
      | .file a b c d => rw [getAtIdx] at h; cases h
      | .folder nm cs p =>
          rw [getAtIdx] at h
          cases hg : cs.get? i with
          | none => rw [hg] at h; cases h
          | some c =>
              rw [hg] at h
              rw [updateAtIdx, getAtIdx, setChildAt_get? (fun c => updateAtIdx f c r) i cs c hg]
              exact ih c v h

/-- A write through a pointer that actually changes the node changes the
service's tree. -/
lemma updateAtIdx_ne (f : FileSystemNode → FileSystemNode) (n v : FileSystemNode)
    (r : List Nat) (h : getAtIdx n r = some v) (hf : f v ≠ v) :
    updateAtIdx f n r ≠ n := by
  intro he
  have h2 := getAtIdx_updateAtIdx f r n v h
  rw [he, h] at h2
  exact hf (Option.some.inj h2.symm)

mutual

/-- Every pair `searchFiles` pushes is a pointer to a matching node inside
the searched tree. -/
theorem searchNodeH_sound (query : String) (n : FileSystemNode) (acc : List Nat)
    (rv : List Nat × FileSystemNode) (h : rv ∈ searchNodeH query n acc) :
    ∃ r', rv.1 = acc ++ r' ∧ getAtIdx n r' = some rv.2 ∧
      searchMatches query rv.2 = true := by
  match n with
  | .file nm c l p =>
      rw [searchNodeH] at h
      by_cases hm : searchMatches query (.file nm c l p)
      · rw [if_pos hm] at h
        simp only [List.mem_singleton] at h
        subst h
        exact ⟨[], by simp, by rw [getAtIdx], hm⟩
      · rw [if_neg hm] at h
        cases h
  | .folder nm cs p =>
      rw [searchNodeH] at h
      obtain ⟨j, c, r'', hc, hrv, hget, hm⟩ := searchChildrenH_sound query cs acc 0 rv h
      refine ⟨j :: r'', by simpa using hrv, ?_, hm⟩
      rw [getAtIdx, hc]
      exact hget
termination_by sizeOf n

/-- Companion of `searchNodeH_sound` for child lists. -/
theorem searchChildrenH_sound (query : String) (cs : List FileSystemNode) (acc : List Nat)
    (i : Nat) (rv : List Nat × FileSystemNode) (h : rv ∈ searchChildrenH query cs acc i) :
    ∃ j c r'', cs.get? j = some c ∧ rv.1 = acc ++ ((i + j) :: r'') ∧
      getAtIdx c r'' = some rv.2 ∧ searchMatches query rv.2 = true := by
  match cs with
  | [] =>
      rw [searchChildrenH] at h
      cases h
  | c :: cs' =>
      rw [searchChildrenH] at h
      rcases List.mem_append.mp h with h1 | h2
      · obtain ⟨r', hrv, hget, hm⟩ := searchNodeH_sound query c (acc ++ [i]) rv h1
        exact ⟨0, c, r', by simp, by simpa using hrv, hget, hm⟩
      · obtain ⟨j, c', r'', hc, hrv, hget, hm⟩ :=
          searchChildrenH_sound query cs' acc (i + 1) rv h2
        refine ⟨j + 1, c', r'', by simpa using hc, ?_, hget, hm⟩
        have harith : i + 1 + j = i + (j + 1) := by omega
        rw [harith] at hrv
        exact hrv
termination_by sizeOf cs

end

/-! ### C2: hand-out semantics of `getFileTree`, `findNode`, `searchFiles` -/

/-- A one-file state used as the concrete counterexample input. -/
def c2FileNode : FileSystemNode := .file "a.txt" "x" "plaintext" "a.txt"

def c2State : FSState :=
  { rootChildren := [c2FileNode], sandbox := ⟨[("a.txt", "x")], []⟩ }

/-- The mutation a consumer can perform on a handed-out node: overwrite
its `content` with `"y"` (exactly what `updateFile` does in the source). -/
def c2Mutation : FileSystemNode → FileSystemNode
  | .file nm _ l p => .file nm "y" l p
  | .folder nm cs p => .folder nm cs p

/-- **C2, counterexample.**  The claim says every node handed out by
`getFileTree`, `findNode` and `searchFiles` is a deep copy, so that
mutating any returned node leaves the service's tree unchanged.  On the
concrete one-file state, `findNode("a.txt")` hands out a pointer into the
tree (`return current` in the source returns the stored node object), and
writing `content = "y"` through it changes the service's tree: the content
at the node's position becomes `"y"` instead of `"x"`. -/
theorem findNode_hands_out_reference :
    FileSystemService.findNodeH (FSState.root c2State) "a.txt" =
      some (.ref [0] c2FileNode) ∧
    treeAfterMutation (FSState.root c2State) (.ref [0] c2FileNode) c2Mutation ≠
      FSState.root c2State := by
  refine ⟨rfl, ?_⟩
  intro he
  have h1 : contentAt (treeAfterMutation (FSState.root c2State) (.ref [0] c2FileNode)
      c2Mutation) [0] = some "y" := rfl
  have h2 : contentAt (FSState.root c2State) [0] = some "x" := rfl
  rw [he, h2] at h1
  have : ("x" : String) = "y" := Option.some.inj h1
  exact absurd this (by decide)

/-- **C2 (amended).**  `getFileTree` hands out a deep copy: a tree
structurally equal to the service's tree, through which no mutation can
reach the service.  `findNode` and `searchFiles`, by contrast, hand out
references: `findNode`'s result is the node object at the walked index
path of the service's own tree (its value agrees with the source-level
`findNode`), and any mutation through it that changes the node changes
the service's tree; likewise every node `searchFiles` returns is a
pointer to a matching file node inside the tree. -/
theorem fs_hand_out_semantics (st : FSState) :
    (FileSystemService.getFileTree st = FSState.root st ∧
      ∀ f, treeAfterMutation (FSState.root st) (FileSystemService.getFileTreeH st) f =
        FSState.root st) ∧
    (∀ (path : String) (r : List Nat) (v : FileSystemNode),
      FileSystemService.findNodeH (FSState.root st) path = some (.ref r v) →
      getAtIdx (FSState.root st) r = some v ∧
      FileSystemService.findNode (FSState.root st) path = some v ∧
      ∀ f, f v ≠ v →
        treeAfterMutation (FSState.root st) (.ref r v) f ≠ FSState.root st) ∧
    (∀ (query : String) (rv : List Nat × FileSystemNode),
      rv ∈ searchNodeH query (FSState.root st) [] →
      getAtIdx (FSState.root st) rv.1 = some rv.2 ∧
      searchMatches query rv.2 = true ∧
      ∀ f, f rv.2 ≠ rv.2 →
        treeAfterMutation (FSState.root st) (.ref rv.1 rv.2) f ≠ FSState.root st) := by
  refine ⟨⟨deepCopyNode_eq _, fun f => rfl⟩, ?_, ?_⟩
  · intro path r v h
    rw [FileSystemService.findNodeH] at h
    cases haux : findNodeHAux (splitPath path) (FSState.root st) [] with
    | none => rw [haux] at h; cases h
    | some rv0 =>
        rw [haux] at h
        simp only [Option.map_some', Option.some.injEq] at h
        obtain ⟨r0, v0⟩ := rv0
        cases h
        obtain ⟨r', hr, hget⟩ := findNodeHAux_sound (splitPath path) (FSState.root st) [] r0 v0 haux
        simp only [List.nil_append] at hr
        subst hr
        refine ⟨hget, ?_, ?_⟩
        · rw [FileSystemService.findNode, ← findNodeHAux_val (splitPath path) (FSState.root st) []]
          rw [haux]
          rfl
        · intro f hf
          exact updateAtIdx_ne f (FSState.root st) v0 _ hget hf
  · intro query rv h
    obtain ⟨rpath, vnode⟩ := rv
    obtain ⟨r', hrv, hget, hm⟩ := searchNodeH_sound query (FSState.root st) [] (rpath, vnode) h
    simp only [List.nil_append] at hrv
    have hrv' : rpath = r' := hrv
    subst hrv'
    exact ⟨hget, hm, fun f hf => updateAtIdx_ne f (FSState.root st) vnode _ hget hf⟩

/-- Witness for the amended C2 at the concrete one-file state: `findNode`
hands out the node at index path `[0]`, its value agrees with the
source-level `findNode`, and the `content := "y"` write through it changes
the service's tree. -/
theorem fs_hand_out_semantics_witness :
    getAtIdx (FSState.root c2State) [0] = some c2FileNode ∧
    FileSystemService.findNode (FSState.root c2State) "a.txt" = some c2FileNode ∧
    treeAfterMutation (FSState.root c2State) (.ref [0] c2FileNode) c2Mutation ≠
      FSState.root c2State := by
  have hne : c2Mutation c2FileNode ≠ c2FileNode := by
    intro he
    have h1 : contentAt (c2Mutation c2FileNode) [] = some "y" := rfl
    rw [he] at h1
    have h2 : contentAt c2FileNode [] = some "x" := rfl
    rw [h2] at h1
    exact absurd (Option.some.inj h1) (by decide)
  have h := (fs_hand_out_semantics c2State).2.1 "a.txt" [0] c2FileNode rfl
  exact ⟨h.1, h.2.1, h.2.2 c2Mutation hne⟩

/-! ### C3: batch application is tolerant of per-operation failures -/

/-- A failed `create`/`update` or `delete` leaves the service state
untouched: every failure point in those methods precedes any mutation. -/
lemma deleteFinish_failed_state_eq (st : FSState) (path : String)
    (r : Except String Sandbox) (hfail : (deleteFinish st path r).ok = false) :
    (deleteFinish st path r).state = st := by
  cases r with
  | error e => rfl
  | ok sb' => simp [deleteFinish] at hfail

lemma applyOp_failed_state_eq (st : FSState) (op : FileOperation)
    (hty : op.type ≠ .rename) (hfail : (applyOp st op).ok = false) :
    (applyOp st op).state = st := by
  match hop : op.type with
  | .create | .update =>
      simp only [applyOp, hop, FileSystemService.createFile] at hfail ⊢
      cases hlast : (splitPath op.path).getLast? with
      | none => simp only [hlast]
      | some fileName => simp only [hlast] at hfail; simp at hfail
  | .delete =>
      simp only [applyOp, hop, FileSystemService.deleteOp] at hfail ⊢
      exact deleteFinish_failed_state_eq st op.path _ hfail
  | .rename => exact absurd hop hty

/-- Only unsuppressed event names reach the emitter during a batch. -/
lemma applyOpsLoop_events_unsuppressed (ops : List FileOperation) :
    ∀ (st : FSState) (e : String), e ∈ (applyOpsLoop st ops).2 → suppressedEvent e = false := by
  induction ops with
  | nil => intro st e he; simp [applyOpsLoop] at he
  | cons op ops ih =>
      intro st e he
      rw [applyOpsLoop] at he
      rcases List.mem_append.mp he with h1 | h2
      · exact Bool.of_not_eq_true (by simpa using (List.mem_filter.mp h1).2)
      · exact ih _ e h2

/-- Removing an effect-free failed operation from the batch does not
change the final state: all the other operations are still applied, in
order, exactly as if the failed one had not been there. -/
lemma applyOpsLoop_failed_skip :
    ∀ (pre : List FileOperation) (st : FSState) (op : FileOperation)
      (post : List FileOperation),
      (applyOp (applyOpsLoop st pre).1 op).state = (applyOpsLoop st pre).1 →
      (applyOpsLoop st (pre ++ op :: post)).1 = (applyOpsLoop st (pre ++ post)).1 := by
  intro pre
  induction pre with
  | nil =>
      intro st op post hstate
      show (applyOpsLoop (applyOp st op).state post).1 = (applyOpsLoop st post).1
      rw [show (applyOp st op).state = st from hstate]
  | cons p pre' ih =>
      intro st op post hstate
      show (applyOpsLoop (applyOp st p).state (pre' ++ op :: post)).1 =
        (applyOpsLoop (applyOp st p).state (pre' ++ post)).1
      exact ih (applyOp st p).state op post hstate

/-- **C3.** For every batch passed to `applyOperations`: the single
aggregate `"operations:applied"` + `"tree:updated"` pair fires at the end
of the batch regardless of how many individual operations failed, and no
suppressed per-file event is emitted during the batch; an operation that
fails without effect on the state (which every failed `create`, `update`
or `delete` is — their failure points precede any mutation) does not
disturb the batch: the final state equals that of the batch with the
failed operation removed, the other operations still applied sequentially
in the given order. -/
theorem applyOperations_partial_failure (st : FSState) (ops : List FileOperation) :
    (∃ evs, (FileSystemService.applyOperations st ops).2 =
        evs ++ ["operations:applied", "tree:updated"] ∧
      ∀ e ∈ evs, suppressedEvent e = false) ∧
    (∀ (pre : List FileOperation) (op : FileOperation) (post : List FileOperation),
      ops = pre ++ op :: post →
      (applyOp (applyOpsLoop st pre).1 op).state = (applyOpsLoop st pre).1 →
      (FileSystemService.applyOperations st ops).1 =
        (FileSystemService.applyOperations st (pre ++ post)).1) ∧
    (∀ (st' : FSState) (op : FileOperation), op.type ≠ .rename →
      (applyOp st' op).ok = false → (applyOp st' op).state = st') := by
  refine ⟨?_, ?_, ?_⟩
  · exact ⟨(applyOpsLoop st ops).2, rfl, fun e he => applyOpsLoop_events_unsuppressed ops st e he⟩
  · intro pre op post hops hstate
    subst hops
    exact applyOpsLoop_failed_skip pre st op post hstate
  · intro st' op hty hfail
    exact applyOp_failed_state_eq st' op hty hfail

/-- Concrete batch for the C3 witness: a valid create, a failing rename
(source path missing), another valid create. -/
def c3St : FSState := { rootChildren := [], sandbox := ⟨[], []⟩ }

def c3CreateA : FileOperation := { type := .create, path := "a.txt", content := some "1" }

def c3BadRename : FileOperation :=
  { type := .rename, path := "missing.txt", newPath := some "moved.txt" }

def c3CreateB : FileOperation := { type := .create, path := "b.txt", content := some "2" }

/-- Witness for C3: in the concrete batch the rename fails (its source
node does not exist), yet the final state is the one of the batch with the
failing operation removed — both creates applied. -/
theorem applyOperations_partial_failure_witness :
    (applyOp (applyOpsLoop c3St [c3CreateA]).1 c3BadRename).ok = false ∧
    (FileSystemService.applyOperations c3St [c3CreateA, c3BadRename, c3CreateB]).1 =
      (FileSystemService.applyOperations c3St [c3CreateA, c3CreateB]).1 :=
  ⟨rfl,
    (applyOperations_partial_failure c3St [c3CreateA, c3BadRename, c3CreateB]).2.1
      [c3CreateA] c3BadRename [c3CreateB] rfl rfl⟩

/-! ### C9: `applyOperations` is idempotent for `create` -/

/-- Overwriting the same path with the same content again is a no-op on
the sandbox. -/
lemma writeFile_idem (sb : Sandbox) (p c : String) :
    (sb.writeFile p c).writeFile p c = sb.writeFile p c := by
  unfold Sandbox.writeFile
  simp [List.filter_append, List.filter_filter]

lemma writeFile_dirs (sb : Sandbox) (p c : String) :
    (sb.writeFile p c).dirs = sb.dirs := rfl

lemma mkdir_mem (sb : Sandbox) (d : String) :
    d ∈ (sb.mkdirIgnoringExisting d).dirs := by
  unfold Sandbox.mkdirIgnoringExisting
  by_cases h : d ∈ sb.dirs
  · simp [h]
  · simp [h]

lemma mkdir_mono (sb : Sandbox) (d d' : String) (h : d' ∈ sb.dirs) :
    d' ∈ (sb.mkdirIgnoringExisting d).dirs := by
  unfold Sandbox.mkdirIgnoringExisting
  by_cases hd : d ∈ sb.dirs
  · simpa [hd] using h
  · simp [hd, h]

lemma mkdir_noop (sb : Sandbox) (d : String) (h : d ∈ sb.dirs) :
    sb.mkdirIgnoringExisting d = sb := by
  unfold Sandbox.mkdirIgnoringExisting
  simp [h]

/-- The `for` loop of `ensureDirectory` as a fold over the prefix paths it
builds. -/
def mkdirAll (sb : Sandbox) (ds : List String) : Sandbox :=
  ds.foldl Sandbox.mkdirIgnoringExisting sb

/-- The prefix paths `ensureDirectory` creates, in creation order. -/
def prefixPaths (path : String) : List String :=
  (List.range (splitPath path).length).map
    (fun i => String.intercalate "/" ((splitPath path).take (i + 1)))

lemma ensureDirectory_eq_mkdirAll (sb : Sandbox) (path : String) :
    ensureDirectory sb path = if path = "" then sb else mkdirAll sb (prefixPaths path) := by
  unfold ensureDirectory mkdirAll prefixPaths
  by_cases h : path = ""
  · simp [h]
  · simp only [if_neg h]
    rw [List.foldl_map]

lemma mkdirAll_mono (ds : List String) :
    ∀ (sb : Sandbox) (d' : String), d' ∈ sb.dirs → d' ∈ (mkdirAll sb ds).dirs := by
  induction ds with
  | nil => intro sb d' h; simpa [mkdirAll] using h
  | cons d ds ih =>
      intro sb d' h
      exact ih (sb.mkdirIgnoringExisting d) d' (mkdir_mono sb d d' h)

lemma mkdirAll_mem_all (ds : List String) :
    ∀ (sb : Sandbox) (d : String), d ∈ ds → d ∈ (mkdirAll sb ds).dirs := by
  induction ds with
  | nil => intro sb d h; cases h
  | cons d0 ds ih =>
      intro sb d h
      rcases List.mem_cons.mp h with rfl | h2
      · exact mkdirAll_mono ds (sb.mkdirIgnoringExisting d) d (mkdir_mem sb d)
      · exact ih (sb.mkdirIgnoringExisting d0) d h2

lemma mkdirAll_noop (ds : List String) :
    ∀ (sb : Sandbox), (∀ d ∈ ds, d ∈ sb.dirs) → mkdirAll sb ds = sb := by
  induction ds with
  | nil => intro sb _; rfl
  | cons d ds ih =>
      intro sb h
      have hd : d ∈ sb.dirs := h d (by simp)
      show mkdirAll (sb.mkdirIgnoringExisting d) ds = sb
      rw [mkdir_noop sb d hd]
      exact ih sb (fun d' hd' => h d' (by simp [hd']))

/-- Running `ensureDirectory` again after the write is a no-op: every
prefix directory already exists. -/
lemma ensureDirectory_idem_after (sb : Sandbox) (path p c : String) :
    ensureDirectory ((ensureDirectory sb path).writeFile p c) path =
      (ensureDirectory sb path).writeFile p c := by
  by_cases h : path = ""
  · rw [ensureDirectory_eq_mkdirAll, if_pos h]
  · rw [ensureDirectory_eq_mkdirAll, if_neg h]
    refine mkdirAll_noop (prefixPaths path) _ (fun d hd => ?_)
    rw [writeFile_dirs]
    rw [ensureDirectory_eq_mkdirAll, if_neg h]
    exact mkdirAll_mem_all (prefixPaths path) sb d hd

/-- The sandbox part of a repeated `createFile` is unchanged. -/
lemma sandbox_create_idem (sb : Sandbox) (d p c : String) :
    (ensureDirectory ((ensureDirectory sb d).writeFile p c) d).writeFile p c =
      (ensureDirectory sb d).writeFile p c := by
  rw [ensureDirectory_idem_after, writeFile_idem]

lemma withChildren_isFolder (c : FileSystemNode) (cs : List FileSystemNode) :
    (c.withChildren cs).isFolder = c.isFolder := by
  cases c <;> rfl

lemma withChildren_name (c : FileSystemNode) (cs : List FileSystemNode) :
    (c.withChildren cs).name = c.name := by
  cases c <;> rfl

/-- A second identical descent through `addNodeScan` lands on the same
folder (the first match is preserved in place) and is absorbed, provided
the recursive payload is itself idempotent. -/
lemma addNodeScan_idem (part : String) (recurse : List FileSystemNode → List FileSystemNode)
    (newPath : String) (hrec : ∀ ch, recurse (recurse ch) = recurse ch) :
    ∀ children, addNodeScan part recurse newPath (addNodeScan part recurse newPath children) =
      addNodeScan part recurse newPath children := by
  intro children
  induction children with
  | nil =>
      rw [addNodeScan, addNodeScan]
      simp [FileSystemNode.isFolder, FileSystemNode.name, FileSystemNode.withChildren,
        FileSystemNode.children, hrec]
  | cons c cs ih =>
      rw [addNodeScan]
      by_cases hc : c.isFolder && c.name == part
      · rw [if_pos hc, addNodeScan,
          if_pos (by rw [withChildren_isFolder, withChildren_name]; exact hc)]
        have hfol : c.isFolder = true := by
          have h' := hc
          simp only [Bool.and_eq_true] at h'
          exact h'.1
        cases c with
        | file a b c d => simp [FileSystemNode.isFolder] at hfol
        | folder nm cs2 p2 =>
            simp [FileSystemNode.withChildren, FileSystemNode.children, hrec]
      · rw [if_neg hc, addNodeScan, if_neg hc, ih]

/-- `addNodeGo` is idempotent when the inserted node carries the popped
name (as it always does in `createFile`). -/
lemma addNodeGo_idem (nodeName : String) (node : FileSystemNode) (allParts : List String)
    (hname : node.name = nodeName) :
    ∀ (parts : List String) (children : List FileSystemNode),
      addNodeGo nodeName node allParts parts
          (addNodeGo nodeName node allParts parts children) =
        addNodeGo nodeName node allParts parts children := by
  intro parts
  induction parts with
  | nil =>
      intro children
      rw [addNodeGo, addNodeGo]
      simp [List.filter_append, List.filter_filter, hname]
  | cons part rest ih =>
      intro children
      exact addNodeScan_idem part _ _ ih children

/-- `addNodeToTree` is idempotent for a node named like the last path
segment. -/
lemma addNodeToTree_idem (path : String) (node : FileSystemNode)
    (rootChildren : List FileSystemNode) (nodeName : String)
    (hlast : (splitPath path).getLast? = some nodeName) (hname : node.name = nodeName) :
    addNodeToTree path node (addNodeToTree path node rootChildren) =
      addNodeToTree path node rootChildren := by
  simp only [addNodeToTree, hlast]
  exact addNodeGo_idem nodeName node (splitPath path).dropLast hname
    (splitPath path).dropLast rootChildren

/-- `createFile` is idempotent on the service state. -/
lemma createFile_idem (st : FSState) (path content : String) :
    (FileSystemService.createFile
        (FileSystemService.createFile st path content).state path content).state =
      (FileSystemService.createFile st path content).state := by
  cases hlast : (splitPath path).getLast? with
  | none => simp only [FileSystemService.createFile, hlast]
  | some fileName =>
      simp only [FileSystemService.createFile, hlast]
      rw [addNodeToTree_idem path
        (.file fileName content (getLanguageFromExtension fileName) path)
        st.rootChildren fileName hlast rfl]
      rw [sandbox_create_idem]

/-- **C9.** `applyOperations` is idempotent for `create` operations:
applying the same create twice — within one batch, or in two successive
batches — leaves the service state (in-memory tree and sandbox files)
identical to applying it once. -/
theorem applyOperations_create_idempotent (st : FSState) (op : FileOperation)
    (hty : op.type = .create) :
    (FileSystemService.applyOperations st [op, op]).1 =
      (FileSystemService.applyOperations st [op]).1 ∧
    (FileSystemService.applyOperations
        (FileSystemService.applyOperations st [op]).1 [op]).1 =
      (FileSystemService.applyOperations st [op]).1 := by
  have h : ∀ s, applyOp s op = FileSystemService.createFile s op.path (op.content.getD "") := by
    intro s
    simp only [applyOp, hty]
  constructor
  · show (applyOpsLoop st [op, op]).1 = (applyOpsLoop st [op]).1
    simp only [applyOpsLoop, h]
    exact createFile_idem st op.path (op.content.getD "")
  · show (applyOpsLoop (applyOpsLoop st [op]).1 [op]).1 = (applyOpsLoop st [op]).1
    simp only [applyOpsLoop, h]
    exact createFile_idem st op.path (op.content.getD "")

/-- Concrete create operation for the C9 witness. -/
def c9St : FSState := { rootChildren := [], sandbox := ⟨[], []⟩ }

def c9Op : FileOperation := { type := .create, path := "a/b.txt", content := some "x" }

/-- Witness for C9 at a concrete nested-path create on the empty state. -/
theorem applyOperations_create_idempotent_witness :
    c9Op.type = .create ∧
    (FileSystemService.applyOperations c9St [c9Op, c9Op]).1 =
      (FileSystemService.applyOperations c9St [c9Op]).1 :=
  ⟨rfl, (applyOperations_create_idempotent c9St c9Op rfl).1⟩

/-! ## Retry utility (src retry utility, `retry`)

The loop `for (attempt = 1; attempt <= maxAttempts; attempt++)` with the
last error raised after exhaustion.  The oracle gives each attempt's
outcome; backoff delays, jitter and metrics do not affect the result and
are not modelled; `retryableErrors` is empty at every modelled call site,
and no per-call `timeout` is passed there. -/

def retryFrom {α : Type} (oracle : Nat → Except String α) :
    Nat → Nat → Except String α
  | _, 0 => .error "retry: no attempts"
  | attempt, 1 => oracle attempt
  | attempt, remaining + 2 =>
      match oracle attempt with
      | .ok v => .ok v
      | .error _ => retryFrom oracle (attempt + 1) (remaining + 1)

/-- `retry(fn, { maxAttempts })`: attempts are numbered from 1; the last
attempt's error is the one raised. -/
def retryRun {α : Type} (maxAttempts : Nat) (oracle : Nat → Except String α) :
    Except String α :=
  retryFrom oracle 1 maxAttempts

/-! ## Runtime lifecycle manager (src `WebContainerService`) -/

/-- Outcome of one underlying `container.spawn` attempt: failing to start,
or a process that (after draining `output` and awaiting `exit`) yields the
given exit code and output. -/
inductive SpawnOutcome where
  | spawnError (e : String)
  | proc (exitCode : Int) (output : String)

/-- `WebContainerService.spawn(command, args)`: requires `this.container`
(else the `"not initialized"` error); wraps the underlying spawn in
`retry` with `maxAttempts: 2`.  The result is the process's exit code and
drained output, as `exec` consumes them. -/
def WebContainerService.spawn (container : Option Unit) (oracle : Nat → SpawnOutcome) :
    Except String (Int × String) :=
  match container with
  | none => .error "WebContainer not initialized. Call boot() first."
  | some _ =>
      retryRun 2 (fun attempt =>
        match oracle attempt with
        | .spawnError e => .error e
        | .proc code out => .ok (code, out))

/-- `WebContainerService.exec(command, args)`: checks `this.container`,
spawns, drains output, awaits the exit code and returns
`{ exitCode, output }` — with no check of the exit code. -/
def WebContainerService.exec (container : Option Unit) (oracle : Nat → SpawnOutcome) :
    Except String (Int × String) :=
  match container with
  | none => .error "WebContainer not initialized"
  | some _ =>
      match WebContainerService.spawn container oracle with
      | .error e => .error e
      | .ok r => .ok r

/-- **C7.** `exec` returns `{exitCode, output}` without raising when the
spawned command exits non-zero (the exit code is returned as-is, never
checked); `spawn` raises the "not initialized" error when the runtime has
no container; and when the underlying spawn fails persistently, `spawn`
raises the LAST error only after its 2-attempt retry budget is exhausted
(a first-attempt failure alone is retried, and recovers if the second
attempt starts). -/
theorem spawn_exec_error_semantics :
    (∀ (oracle : Nat → SpawnOutcome) (code : Int) (out : String),
      oracle 1 = .proc code out →
      WebContainerService.exec (some ()) oracle = .ok (code, out)) ∧
    (∀ oracle, WebContainerService.spawn none oracle =
      .error "WebContainer not initialized. Call boot() first.") ∧
    (∀ oracle, WebContainerService.exec none oracle =
      .error "WebContainer not initialized") ∧
    (∀ (oracle : Nat → SpawnOutcome) (e1 e2 : String),
      oracle 1 = .spawnError e1 → oracle 2 = .spawnError e2 →
      WebContainerService.spawn (some ()) oracle = .error e2) ∧
    (∀ (oracle : Nat → SpawnOutcome) (e1 : String) (code : Int) (out : String),
      oracle 1 = .spawnError e1 → oracle 2 = .proc code out →
      WebContainerService.spawn (some ()) oracle = .ok (code, out)) := by
  refine ⟨?_, fun _ => rfl, fun _ => rfl, ?_, ?_⟩
  · intro oracle code out h1
    show (match WebContainerService.spawn (some ()) oracle with
      | .error e => Except.error e
      | .ok r => Except.ok r) = .ok (code, out)
    rw [show WebContainerService.spawn (some ()) oracle = .ok (code, out) from ?_]
    show retryRun 2 _ = _
    rw [retryRun, retryFrom, h1]
  · intro oracle e1 e2 h1 h2
    show retryRun 2 _ = _
    rw [retryRun, retryFrom, h1]
    show retryFrom _ 2 1 = _
    rw [retryFrom, h2]
  · intro oracle e1 code out h1 h2
    show retryRun 2 _ = _
    rw [retryRun, retryFrom, h1]
    show retryFrom _ 2 1 = _
    rw [retryFrom, h2]

/-- Concrete oracles for the C7 witness: a command that exits `1`, and a
spawn that fails on both attempts. -/
def c7ExitOneOracle : Nat → SpawnOutcome := fun _ => .proc 1 "fail-output"

def c7BrokenSpawnOracle : Nat → SpawnOutcome := fun n =>
  .spawnError ("ENOENT attempt " ++ toString n)

/-- Witness for C7: `exec` of the exit-1 command returns the code without
raising, and the persistently failing spawn surfaces the second attempt's
error. -/
theorem spawn_exec_error_semantics_witness :
    WebContainerService.exec (some ()) c7ExitOneOracle = .ok (1, "fail-output") ∧
    WebContainerService.spawn (some ()) c7BrokenSpawnOracle =
      .error ("ENOENT attempt " ++ toString 2) :=
  ⟨spawn_exec_error_semantics.1 c7ExitOneOracle 1 "fail-output" rfl,
    (spawn_exec_error_semantics.2.2.2.1 c7BrokenSpawnOracle
      ("ENOENT attempt " ++ toString 1) ("ENOENT attempt " ++ toString 2) rfl rfl)⟩

/-! ### Boot lifecycle (src `WebContainerService.boot`)

`boot()` is `async`; its synchronous prefix (everything up to
`await this.bootPromise`) runs atomically on the JS event loop.  `bootSync`
is that prefix: it decides whether the caller gets the ready container,
joins the in-flight boot promise, or starts a new underlying boot
(`performBootWithRetry`), allocating a fresh promise id.  Two callers
await the same promise id exactly when they receive the same resolution
value (the same container handle). -/

structure BootState where
  container : Option Nat
  bootPromise : Option Nat
  isBooting : Bool
  isReady : Bool
deriving DecidableEq, Repr

/-- Field initialisers of `WebContainerService`. -/
def BootState.initial : BootState :=
  { container := none, bootPromise := none, isBooting := false, isReady := false }

/-- What the synchronous prefix of one `boot()` call does. -/
inductive BootSyncResult where
  | returnExisting (c : Nat)
  | awaitExisting (p : Nat)
  | startedBoot (p : Nat)
deriving DecidableEq, Repr

/-- The synchronous prefix of `boot()`: the `container && isReady` check,
the `isBooting && bootPromise` check, then
`this.isBooting = true; this.bootPromise = performBootWithRetry()`. -/
def bootSync (s : BootState) (freshPromise : Nat) : BootSyncResult × BootState :=
  match s.container, s.isReady with
  | some c, true => (.returnExisting c, s)
  | _, _ =>
      match s.isBooting, s.bootPromise with
      | true, some p => (.awaitExisting p, s)
      | _, _ =>
          (.startedBoot freshPromise,
            { s with isBooting := true, bootPromise := some freshPromise })

/-- The continuation of `boot()` after `await this.bootPromise` resolved
with container `c`: record the container, mark ready, clear `isBooting`. -/
def bootResolveSuccess (s : BootState) (c : Nat) : BootState :=
  { s with container := some c, isReady := true, isBooting := false }

/-- The promise a `boot()` caller's result resolves from (`none` when the
ready container was returned synchronously). -/
def awaitedPromise : BootSyncResult → Option Nat
  | .returnExisting _ => none
  | .awaitExisting p => some p
  | .startedBoot p => some p

/-- How many of the listed call outcomes started an underlying boot. -/
def countStartedBoot (rs : List BootSyncResult) : Nat :=
  (rs.filter (fun r => match r with | .startedBoot _ => true | _ => false)).length

/-- **C5.** `boot()` is idempotent: if the runtime is already ready it
returns the existing container handle and starts nothing; if a boot is in
flight, a `boot()` call awaits the same in-flight promise without
touching the state.  Scenario: two `boot()` calls from the cold state,
made before either resolves, perform exactly one underlying boot attempt
and await the same promise — hence both callers receive the same handle;
once that promise resolves with a container, the state is ready with that
container and any later `boot()` returns it unchanged. -/
theorem boot_idempotent_coalescing :
    (∀ (s : BootState) (c p : Nat), s.container = some c → s.isReady = true →
      bootSync s p = (.returnExisting c, s)) ∧
    (∀ (s : BootState) (p0 p : Nat), s.isReady = false → s.isBooting = true →
      s.bootPromise = some p0 → bootSync s p = (.awaitExisting p0, s)) ∧
    (∀ (p p' c : Nat),
      (bootSync BootState.initial p).1 = .startedBoot p ∧
      (bootSync (bootSync BootState.initial p).2 p').1 = .awaitExisting p ∧
      countStartedBoot [(bootSync BootState.initial p).1,
        (bootSync (bootSync BootState.initial p).2 p').1] = 1 ∧
      awaitedPromise (bootSync BootState.initial p).1 = some p ∧
      awaitedPromise (bootSync (bootSync BootState.initial p).2 p').1 = some p ∧
      (∀ q, bootSync
          (bootResolveSuccess (bootSync (bootSync BootState.initial p).2 p').2 c) q =
        (.returnExisting c,
          bootResolveSuccess (bootSync (bootSync BootState.initial p).2 p').2 c))) := by
  refine ⟨?_, ?_, ?_⟩
  · intro s c p hc hr
    rw [bootSync, hc, hr]
  · intro s p0 p hr hb hp
    cases hcont : s.container with
    | none => simp [bootSync, hcont, hr, hb, hp]
    | some c => simp [bootSync, hcont, hr, hb, hp]
  · intro p p' c
    exact ⟨rfl, rfl, rfl, rfl, rfl, fun q => rfl⟩

/-- Witness for C5 at concrete states: a ready service returns handle `7`
unchanged, an in-flight boot is joined at its promise `4`, and in the
two-cold-calls scenario the second call awaits the first call's promise. -/
theorem boot_idempotent_coalescing_witness :
    bootSync ⟨some 7, none, false, true⟩ 99 =
      (.returnExisting 7, ⟨some 7, none, false, true⟩) ∧
    bootSync ⟨none, some 4, true, false⟩ 99 =
      (.awaitExisting 4, ⟨none, some 4, true, false⟩) ∧
    (bootSync (bootSync BootState.initial 5).2 6).1 = .awaitExisting 5 :=
  ⟨boot_idempotent_coalescing.1 ⟨some 7, none, false, true⟩ 7 99 rfl rfl,
    boot_idempotent_coalescing.2.1 ⟨none, some 4, true, false⟩ 4 99 rfl rfl rfl,
    (boot_idempotent_coalescing.2.2 5 6 0).2.1⟩

/-! ## `retryWithCircuitBreaker` (src retry utility)

The source constructs `new CircuitBreaker(circuitOptions)` inside each
invocation and returns `retry(() => circuitBreaker.execute(fn), ...)`:
the breaker state is local to the invocation.  `retryCBFrom` is the retry
loop with the breaker state threaded through the attempts; the third
result component lists the attempts at which the wrapped operation was
actually invoked (not rejected by the breaker). -/

inductive RetryCBResult where
  | ok
  | failedOp
  | failedCircuitOpen
deriving DecidableEq, Repr

def retryCBFrom (opts : CircuitBreakerOptions) (oracle : Nat → Bool) (times : Nat → Nat) :
    Nat → CircuitBreakerState → Nat → RetryCBResult × CircuitBreakerState × List Nat
  | _, cb, 0 => (.failedOp, cb, [])
  | attempt, cb, 1 =>
      match CircuitBreaker.execute opts cb (times attempt) (oracle attempt) with
      | ⟨.success, inv, cb'⟩ => (.ok, cb', if inv then [attempt] else [])
      | ⟨.opFailure, inv, cb'⟩ => (.failedOp, cb', if inv then [attempt] else [])
      | ⟨.circuitOpenError, inv, cb'⟩ =>
          (.failedCircuitOpen, cb', if inv then [attempt] else [])
  | attempt, cb, r + 2 =>
      match CircuitBreaker.execute opts cb (times attempt) (oracle attempt) with
      | ⟨.success, inv, cb'⟩ => (.ok, cb', if inv then [attempt] else [])
      | ⟨.opFailure, inv, cb'⟩ =>
          match retryCBFrom opts oracle times (attempt + 1) cb' (r + 1) with
          | (res, cbf, invs) => (res, cbf, (if inv then [attempt] else []) ++ invs)
      | ⟨.circuitOpenError, inv, cb'⟩ =>
          match retryCBFrom opts oracle times (attempt + 1) cb' (r + 1) with
          | (res, cbf, invs) => (res, cbf, (if inv then [attempt] else []) ++ invs)

/-- `retryWithCircuitBreaker(fn, retryOptions, circuitOptions)`: a FRESH
breaker (`CircuitBreakerState.initial`) gates the retry attempts of this
invocation only. -/
def retryWithCircuitBreaker (opts : CircuitBreakerOptions) (maxAttempts : Nat)
    (oracle : Nat → Bool) (times : Nat → Nat) :
    RetryCBResult × CircuitBreakerState × List Nat :=
  retryCBFrom opts oracle times 1 CircuitBreakerState.initial maxAttempts

/-- A call through a closed breaker always invokes the wrapped
operation. -/
lemma execute_invoked_of_closed (opts : CircuitBreakerOptions) (cb : CircuitBreakerState)
    (now : Nat) (b : Bool) (h : cb.state = .closed) :
    (CircuitBreaker.execute opts cb now b).invoked = true := by
  have hg : cbGate opts cb now = some cb := by
    rw [cbGate, if_neg (by simp [h])]
  rw [execute_gate_some opts cb cb now b hg]
  cases b <;> rfl

/-- A circuit-open rejection happens only in the `OPEN` state and leaves
the breaker unchanged. -/
lemma execute_circuitOpen_inv (opts : CircuitBreakerOptions) (cb : CircuitBreakerState)
    (now : Nat) (b : Bool)
    (h : (CircuitBreaker.execute opts cb now b).result = .circuitOpenError) :
    cb.state = .opened := by
  cases hg : cbGate opts cb now with
  | none =>
      unfold cbGate at hg
      by_cases hst : cb.state = .opened
      · exact hst
      · rw [if_neg hst] at hg; cases hg
  | some s1 =>
      rw [execute_gate_some opts cb s1 now b hg] at h
      cases b <;> simp at h

/-- One `execute` call increases the failure counter by at most one. -/
lemma execute_failures_le (opts : CircuitBreakerOptions) (cb : CircuitBreakerState)
    (now : Nat) (b : Bool) :
    (CircuitBreaker.execute opts cb now b).state.failures ≤ cb.failures + 1 := by
  cases hg : cbGate opts cb now with
  | none =>
      rw [execute_gate_none opts cb now b hg]
      exact Nat.le_succ_of_le (Nat.le_refl _)
  | some s1 =>
      have hs1 : s1.failures = cb.failures := by
        unfold cbGate at hg
        split at hg
        · split at hg
          · cases hg; rfl
          · cases hg
        · cases hg; rfl
      rw [execute_gate_some opts cb s1 now b hg]
      cases b
      · show (cbAfterFailure opts s1 now).failures ≤ cb.failures + 1
        unfold cbAfterFailure
        by_cases hth : opts.failureThreshold ≤ s1.failures + 1
        · rw [if_pos hth]; rw [← hs1]
        · rw [if_neg hth]; rw [← hs1]
      · show (cbAfterSuccess s1).failures ≤ cb.failures + 1
        unfold cbAfterSuccess
        by_cases hho : s1.state = .halfOpen
        · rw [if_pos hho]
          by_cases h3 : 3 ≤ s1.successCount + 1
          · rw [if_pos h3]; exact Nat.zero_le _
          · rw [if_neg h3]; rw [← hs1]; exact Nat.le_succ_of_le (Nat.le_refl _)
        · rw [if_neg hho]; rw [← hs1]; exact Nat.le_succ_of_le (Nat.le_refl _)

/-- The first attempt of a run starting from a closed breaker always
invokes the wrapped operation. -/
lemma retryCBFrom_first_invoked (opts : CircuitBreakerOptions) (oracle : Nat → Bool)
    (times : Nat → Nat) (attempt : Nat) (cb : CircuitBreakerState)
    (hcb : cb.state = .closed) :
    ∀ n, 1 ≤ n → attempt ∈ (retryCBFrom opts oracle times attempt cb n).2.2 := by
  intro n hn
  have hinv := execute_invoked_of_closed opts cb (times attempt) (oracle attempt) hcb
  match n with
  | 1 =>
      rw [retryCBFrom]
      cases hstep : CircuitBreaker.execute opts cb (times attempt) (oracle attempt) with
      | mk res inv cb' =>
          rw [hstep] at hinv
          have hinv2 : inv = true := hinv
          cases res <;> simp [hinv2]
  | k + 2 =>
      rw [retryCBFrom]
      cases hstep : CircuitBreaker.execute opts cb (times attempt) (oracle attempt) with
      | mk res inv cb' =>
          rw [hstep] at hinv
          have hinv2 : inv = true := hinv
          cases res <;> simp [hinv2]

/-- A circuit-open rejection anywhere in a run requires the failure
counter to have reached the threshold, and each attempt adds at most one
failure: the rejection cannot come out of a run whose budget is below the
threshold. -/
lemma retryCBFrom_circuitOpen_bound (opts : CircuitBreakerOptions) (oracle : Nat → Bool)
    (times : Nat → Nat) :
    ∀ (n attempt : Nat) (cb : CircuitBreakerState), cbInv opts cb →
      (retryCBFrom opts oracle times attempt cb n).1 = .failedCircuitOpen →
      opts.failureThreshold ≤ cb.failures + (n - 1) := by
  intro n
  induction n using Nat.strong_induction_on with
  | _ n ih =>
      match n with
      | 0 => intro attempt cb _ hres; cases hres
      | 1 =>
          intro attempt cb hicb hres
          rw [retryCBFrom] at hres
          cases hstep : CircuitBreaker.execute opts cb (times attempt) (oracle attempt) with
          | mk res inv cb' =>
              rw [hstep] at hres
              cases res with
              | success => cases hres
              | opFailure => cases hres
              | circuitOpenError =>
                  have hopen : cb.state = .opened :=
                    execute_circuitOpen_inv opts cb (times attempt) (oracle attempt)
                      (by rw [hstep])
                  simpa using hicb (Or.inl hopen)
      | k + 2 =>
          intro attempt cb hicb hres
          rw [retryCBFrom] at hres
          cases hstep : CircuitBreaker.execute opts cb (times attempt) (oracle attempt) with
          | mk res inv cb' =>
              rw [hstep] at hres
              have hinv' : cbInv opts cb' := by
                have := execute_preserves_cbInv opts cb (times attempt) (oracle attempt) hicb
                rwa [hstep] at this
              have hfle : cb'.failures ≤ cb.failures + 1 := by
                have := execute_failures_le opts cb (times attempt) (oracle attempt)
                rwa [hstep] at this
              cases res with
              | success => cases hres
              | opFailure =>
                  dsimp only at hres
                  cases hrec : retryCBFrom opts oracle times (attempt + 1) cb' (k + 1) with
                  | mk res2 rest =>
                      obtain ⟨cbf, invs⟩ := rest
                      rw [hrec] at hres
                      dsimp only at hres
                      have hb := ih (k + 1) (by omega) (attempt + 1) cb' hinv'
                        (by rw [hrec]; exact hres)
                      simp only [Nat.add_sub_cancel] at hb ⊢
                      omega
              | circuitOpenError =>
                  dsimp only at hres
                  cases hrec : retryCBFrom opts oracle times (attempt + 1) cb' (k + 1) with
                  | mk res2 rest =>
                      obtain ⟨cbf, invs⟩ := rest
                      rw [hrec] at hres
                      dsimp only at hres
                      have hb := ih (k + 1) (by omega) (attempt + 1) cb' hinv'
                        (by rw [hrec]; exact hres)
                      simp only [Nat.add_sub_cancel] at hb ⊢
                      omega

/-- **C10.** Each invocation of `retryWithCircuitBreaker` constructs a
fresh circuit breaker, so breaker state never persists across
invocations: an invocation is a function of its own attempts only, its
first attempt is always allowed through to the wrapped operation (never
rejected with the "Circuit breaker is OPEN" error, whatever any earlier
invocation did), and when an invocation does end in the circuit-open
rejection, that rejection arose between retry attempts within the
invocation itself — at least `failureThreshold` of its own earlier
attempts had to fail first, so its attempt budget exceeds the
threshold. -/
theorem retryWithCircuitBreaker_fresh_breaker (opts : CircuitBreakerOptions)
    (maxAttempts : Nat) (oracle : Nat → Bool) (times : Nat → Nat)
    (hn : 1 ≤ maxAttempts) :
    1 ∈ (retryWithCircuitBreaker opts maxAttempts oracle times).2.2 ∧
    ((retryWithCircuitBreaker opts maxAttempts oracle times).1 = .failedCircuitOpen →
      opts.failureThreshold + 1 ≤ maxAttempts) := by
  constructor
  · exact retryCBFrom_first_invoked opts oracle times 1 CircuitBreakerState.initial rfl
      maxAttempts hn
  · intro hres
    have hb := retryCBFrom_circuitOpen_bound opts oracle times maxAttempts 1
      CircuitBreakerState.initial (by intro hc; simp [CircuitBreakerState.initial] at hc) hres
    simp only [CircuitBreakerState.initial] at hb
    omega

/-- Witness for C10 with `failureThreshold = 1`, two attempts, an
always-failing operation: the run ends in the circuit-open rejection
(which therefore arose between the two attempts of this invocation), the
first attempt was invoked, and the budget indeed exceeds the threshold. -/
theorem retryWithCircuitBreaker_fresh_breaker_witness :
    (retryWithCircuitBreaker ⟨1, 60000⟩ 2 (fun _ => false) (fun _ => 0)).1 =
      .failedCircuitOpen ∧
    1 ∈ (retryWithCircuitBreaker ⟨1, 60000⟩ 2 (fun _ => false) (fun _ => 0)).2.2 ∧
    (1 : Nat) + 1 ≤ 2 :=
  ⟨rfl,
    (retryWithCircuitBreaker_fresh_breaker ⟨1, 60000⟩ 2 (fun _ => false) (fun _ => 0)
      (by decide)).1,
    (retryWithCircuitBreaker_fresh_breaker ⟨1, 60000⟩ 2 (fun _ => false) (fun _ => 0)
      (by decide)).2 rfl⟩

/-! ## Streaming response parser (src `AIService`)

The three regexes of `extractCodeBlocks` / `extractCommands` are embedded
as character-level matchers.  Each matcher reproduces the JS regex's
backtracking behaviour on its pattern, which was analysed case by case;
the analysis is recorded at the relevant definition.  `exec` with the `g`
flag scans candidate start positions left to right and resumes after the
end of each match; `scanDriver` does the same (every match of these
patterns starts with a backtick fence, so candidates are positions whose
text starts with three backticks).  It is fuelled to stay structurally
recursive; one unit of fuel is spent per scanned position or match, so
`length + 1` units never run out. -/

/-- JS `\w`: ASCII letters, digits, underscore. -/
def isWordChar (c : Char) : Bool :=
  c.isAlphanum || c = '_'

/-- JS `\s`, restricted to its ASCII members (the inputs modelled here are
ASCII): space, tab, newline, carriage return, vertical tab, form feed. -/
def isSpaceJS (c : Char) : Bool :=
  c = ' ' || c = '\t' || c = '\n' || c = '\r' || c = '\x0b' || c = '\x0c'

/-- The three-backtick fence. -/
def fenceChars : List Char := ['`', '`', '`']

/-- Leftmost occurrence of the fence: `some (before, after)` splits around
the first `` ``` `` (lazy `[\s\S]*?` followed by the literal fence). -/
def splitAtFence : List Char → Option (List Char × List Char)
  | [] => none
  | c :: cs =>
      if fenceChars.isPrefixOf (c :: cs) then some ([], cs.drop 2)
      else (splitAtFence cs).map (fun pr => (c :: pr.1, pr.2))

/-- The suffix of a whitespace run after its LAST newline.  Greedy `\s*`
followed by a literal `\n` and a pattern that can match anything consumes
the run up to and including its last newline (the largest backtrack point
that puts `\n` right before the rest); `none` when the run has no
newline, in which case the whole candidate fails. -/
def afterLastNewline : List Char → Option (List Char)
  | [] => none
  | c :: cs =>
      match afterLastNewline cs with
      | some suffix => some suffix
      | none => if c = '\n' then some cs else none

/-- JS `String.prototype.trim`: whitespace stripped from both ends. -/
def trimChars (l : List Char) : List Char :=
  (((l.dropWhile isSpaceJS).reverse).dropWhile isSpaceJS).reverse

/-- JS `line.split(/\s+/)` on a line with no leading or trailing
whitespace: the whitespace-separated words, in order. -/
def wordsAux : List Char → List Char → List (List Char)
  | [], acc => if acc.isEmpty then [] else [acc.reverse]
  | c :: cs, acc =>
      if isSpaceJS c then
        if acc.isEmpty then wordsAux cs [] else acc.reverse :: wordsAux cs []
      else wordsAux cs (c :: acc)

def wordsOf (l : List Char) : List (List Char) :=
  wordsAux l []

/-- The parsed `CodeBlock` of `AIService`. -/
structure CodeBlock where
  filename : String
  content : String
  language : String
deriving DecidableEq, Repr

/-- The parsed `Command` of `AIService`. -/
structure Command where
  command : String
  args : List String
  raw : String
deriving DecidableEq, Repr

/-- The `exec` loop: scan candidate positions left to right; at a fence,
attempt `tryM` on the text after the three backticks; a match is emitted
and scanning resumes after it (`lastIndex`), a failure moves the scan one
position forward. -/
def scanDriver {α : Type} (tryM : List Char → Option (α × List Char)) :
    Nat → List Char → List α
  | 0, _ => []
  | _ + 1, [] => []
  | fuel + 1, c :: cs =>
      if fenceChars.isPrefixOf (c :: cs) then
        match tryM ((c :: cs).drop 3) with
        | some (a, remaining) => a :: scanDriver tryM fuel remaining
        | none => scanDriver tryM fuel cs
      else scanDriver tryM fuel cs

def isQuote (c : Char) : Bool :=
  c = '"' || c = '\''

/-- Stage 4 of pattern 1: the `\s*\n([\s\S]*?)(fence)` tail after the
closing quote, `r6` being the text after it. -/
def p1Body (w fname : List Char) (r6 : List Char) : Option (CodeBlock × List Char) :=
  (afterLastNewline (r6.takeWhile isSpaceJS)).bind fun spSuffix =>
    (splitAtFence (spSuffix ++ r6.dropWhile isSpaceJS)).map fun pr =>
      ({ filename := fname.asString,
         content := (trimChars pr.1).asString,
         language := if w.isEmpty then "plaintext" else w.asString },
       pr.2)

/-- Stage 3 of pattern 1: `["']([^"']+)["']` at `r3`. -/
def p1Quoted (w : List Char) (r3 : List Char) : Option (CodeBlock × List Char) :=
  match r3 with
  | [] => none
  | q :: r4 =>
      if isQuote q then
        match r4.dropWhile (fun c => !isQuote c) with
        | [] => none
        | _ :: r6 =>
            if (r4.takeWhile (fun c => !isQuote c)).isEmpty then none
            else p1Body w (r4.takeWhile (fun c => !isQuote c)) r6
      else none

/-- Stage 2 of pattern 1: the `(?:filename|file)=` alternation at `r2`
(the alternatives' continuations are disjoint at the fifth character). -/
def p1Attr (w : List Char) (r2 : List Char) : Option (CodeBlock × List Char) :=
  if ("filename=".toList).isPrefixOf r2 then p1Quoted w (r2.drop 9)
  else if ("file=".toList).isPrefixOf r2 then p1Quoted w (r2.drop 5)
  else none

/-- Pattern 1 of `extractCodeBlocks`:
`/(three backticks)(\w+)?\s+(?:filename|file)=["']([^"']+)["']\s*\n([\s\S]*?)(fence)/`
matched at a candidate fence, `rest` being the text after the opening
backticks.  Each regex piece is deterministic here: the maximal word run
(shorter splits leave a word character where `\s+` needs whitespace), the
maximal whitespace runs, the first-fitting alternative of
`filename=`/`file=` (their continuations are disjoint), the maximal
quote-free run for the group, the last newline of the `\s*\n` run, and
the leftmost closing fence for the lazy body. -/
def tryP1 (rest : List Char) : Option (CodeBlock × List Char) :=
  match rest.dropWhile isWordChar with
  | [] => none
  | c :: r1' =>
      if isSpaceJS c then
        p1Attr (rest.takeWhile isWordChar) ((c :: r1').dropWhile isSpaceJS)
      else none

/-- The `\s*([^\n]+)\n([\s\S]*?)(fence)` tail of pattern 2, with its real
backtracking: greedy `\s*` first consumes the whole whitespace run and
gives characters back one at a time; at each backtrack point the line
group must be a nonempty newline-free run ending at a `\n`, and a closing
fence must follow somewhere after.  `k` is the number of whitespace
characters `\s*` consumes. -/
def tryLineAt (r3 : List Char) (k : Nat) : Option (List Char × List Char × List Char) :=
  let t := r3.drop k
  let line := t.takeWhile (fun c => c ≠ '\n')
  if line.isEmpty then none
  else
    match t.drop line.length with
    | '\n' :: rest =>
        match splitAtFence rest with
        | some (body, remaining) => some (line, body, remaining)
        | none => none
    | _ => none

def searchLine (r3 : List Char) : Nat → Option (List Char × List Char × List Char)
  | 0 => tryLineAt r3 0
  | k + 1 =>
      match tryLineAt r3 (k + 1) with
      | some res => some res
      | none => searchLine r3 k

/-- Pattern 2 of `extractCodeBlocks` (comment-style filename):
`/(fence)(\w+)?\s*\n(?:\/\/|#)\s*([^\n]+)\n([\s\S]*?)(fence)/`.
After the optional word tag, `\s*\n` must put the `\n` directly before
the comment marker; every earlier newline of the whitespace run is
followed by more whitespace, which can never start `//` or `#`, so the
run must end with a newline.  The filename group is trimmed by the
caller (`match[2].trim()`), recorded here. -/
def tryP2 (rest : List Char) : Option (CodeBlock × List Char) :=
  let w := rest.takeWhile isWordChar
  let r1 := rest.dropWhile isWordChar
  let sp := r1.takeWhile isSpaceJS
  if sp.isEmpty then none
  else if sp.getLast? ≠ some '\n' then none
  else
    let r2 := r1.dropWhile isSpaceJS
    let markRest :=
      if ("//".toList).isPrefixOf r2 then some (r2.drop 2)
      else if r2.head? = some '#' then some (r2.drop 1)
      else none
    match markRest with
    | none => none
    | some r3 =>
        match searchLine r3 ((r3.takeWhile isSpaceJS).length) with
        | none => none
        | some (fnameRaw, body, remaining) =>
            some
              ({ filename := (trimChars fnameRaw).asString,
                 content := (trimChars body).asString,
                 language := if w.isEmpty then "plaintext" else w.asString },
               remaining)

/-- The shell-block pattern of `extractCommands`:
`/(fence)(?:bash|sh|zsh|shell)\s*\n([\s\S]*?)(fence)/`.  The alternation
is tried in source order with full continuation (e.g. on `shell` the
alternative `sh` matches but its continuation fails at `ell`, so `shell`
is reached). -/
def shellAfterTag (r1 : List Char) : Option (List Char × List Char) :=
  (afterLastNewline (r1.takeWhile isSpaceJS)).bind fun spSuffix =>
    splitAtFence (spSuffix ++ r1.dropWhile isSpaceJS)

def tryShellTags (rest : List Char) : List String → Option (List Char × List Char)
  | [] => none
  | tag :: tags =>
      if (tag.toList).isPrefixOf rest then
        (shellAfterTag (rest.drop tag.length)).or (tryShellTags rest tags)
      else tryShellTags rest tags

def tryShell (rest : List Char) : Option (List Char × List Char) :=
  tryShellTags rest ["bash", "sh", "zsh", "shell"]

/-- `AIService.extractCodeBlocks`: pattern-1 matches first, then
pattern-2 matches filtered by the path-likeness check
`filename.includes("/") || filename.includes(".")`. -/
def AIService.extractCodeBlocks (text : String) : List CodeBlock :=
  let cs := text.toList
  scanDriver tryP1 (cs.length + 1) cs ++
    (scanDriver tryP2 (cs.length + 1) cs).filter
      (fun b => b.filename.toList.contains '/' || b.filename.toList.contains '.')

/-- Per-block command parsing of `extractCommands`: trim the block body;
skip the whole block when it starts with `//` or `#` and its first line
contains `/` or `.` (a commented file header); otherwise split into
lines, trim each, drop blanks and `#` comments, and split each remaining
line on whitespace into the command and its arguments. -/
def processShellBlock (raw : List Char) : List Command :=
  let content := trimChars raw
  let firstLine := ((splitOnCharAux '\n' content []).headD [])
  if (("//".toList).isPrefixOf content || content.head? = some '#') &&
      (firstLine.contains '/' || firstLine.contains '.') then
    []
  else
    let lines := ((splitOnCharAux '\n' content []).map trimChars).filter
      (fun l => ¬ l.isEmpty && ¬ (l.head? = some '#'))
    lines.map (fun l =>
      { command := ((wordsOf l).headD []).asString,
        args := ((wordsOf l).drop 1).map (fun a => a.asString),
        raw := l.asString })

/-- `AIService.extractCommands`. -/
def AIService.extractCommands (text : String) : List Command :=
  let cs := text.toList
  ((scanDriver tryShell (cs.length + 1) cs).map processShellBlock).flatten

/-! ### Parser lemmas: scanning, splitting, trimming -/

/-- `takeWhile`/`dropWhile` on an append whose left part satisfies the
predicate and whose right part starts (if at all) with a violation. -/
lemma takeWhile_dropWhile_append {α : Type} (p : α → Bool) :
    ∀ (A B : List α), (∀ a ∈ A, p a = true) →
      (∀ b, B.head? = some b → p b = false) →
      (A ++ B).takeWhile p = A ∧ (A ++ B).dropWhile p = B := by
  intro A
  induction A with
  | nil =>
      intro B _ hB
      cases B with
      | nil => exact ⟨rfl, rfl⟩
      | cons b bs =>
          have hb : p b = false := hB b rfl
          constructor
          · simp [List.takeWhile_cons, hb]
          · simp [List.dropWhile_cons, hb]
  | cons a A ih =>
      intro B hA hB
      have ha : p a = true := hA a (by simp)
      have ihr := ih B (fun x hx => hA x (by simp [hx])) hB
      constructor
      · simp [List.takeWhile_cons, ha, ihr.1]
      · simp [List.dropWhile_cons, ha, ihr.2]

/-- The fence is a prefix of three backticks followed by anything. -/
lemma fence_prefixOf (cs : List Char) :
    fenceChars.isPrefixOf ('`' :: '`' :: '`' :: cs) = true := by
  simp [fenceChars, List.isPrefixOf]

/-- The fence is not a prefix of a list with a non-backtick head. -/
lemma fence_not_prefixOf (c : Char) (cs : List Char) (hc : c ≠ '`') :
    fenceChars.isPrefixOf (c :: cs) = false := by
  show (('`' == c) && List.isPrefixOf ['`', '`'] cs) = false
  rw [beq_eq_false_iff_ne.mpr (Ne.symm hc), Bool.false_and]

/-- Nor of two backticks followed by a non-backtick (or the end). -/
lemma fence_not_prefixOf_two (ds : List Char) (hds : ∀ c, ds.head? = some c → c ≠ '`') :
    fenceChars.isPrefixOf ('`' :: '`' :: ds) = false := by
  cases ds with
  | nil => rfl
  | cons d ds' =>
      show (('`' == '`') && (('`' == '`') && (('`' == d) && List.isPrefixOf [] ds'))) = false
      rw [beq_eq_false_iff_ne.mpr (Ne.symm (hds d rfl))]
      simp

/-- Nor of one backtick followed by a non-backtick (or the end). -/
lemma fence_not_prefixOf_one (ds : List Char) (hds : ∀ c, ds.head? = some c → c ≠ '`') :
    fenceChars.isPrefixOf ('`' :: ds) = false := by
  cases ds with
  | nil => rfl
  | cons d ds' =>
      show (('`' == '`') && (('`' == d) && List.isPrefixOf ['`'] ds')) = false
      rw [beq_eq_false_iff_ne.mpr (Ne.symm (hds d rfl))]
      simp

/-- Unfolding `splitAtFence` on a cons. -/
lemma splitAtFence_cons (c : Char) (cs : List Char) :
    splitAtFence (c :: cs) =
      if fenceChars.isPrefixOf (c :: cs) then some ([], cs.drop 2)
      else (splitAtFence cs).map (fun pr => (c :: pr.1, pr.2)) := rfl

/-- The leftmost fence in `X ++ fence ++ R` for backtick-free `X`. -/
lemma splitAtFence_clean :
    ∀ (X : List Char), '`' ∉ X → ∀ R,
      splitAtFence (X ++ fenceChars ++ R) = some (X, R) := by
  intro X
  induction X with
  | nil =>
      intro _ R
      rw [List.nil_append]
      show splitAtFence ('`' :: '`' :: '`' :: R) = some ([], R)
      rw [splitAtFence, if_pos (by rw [fence_prefixOf])]
      rfl
  | cons x X ih =>
      intro hx R
      have hxb : x ≠ '`' := fun h => hx (by simp [h])
      rw [List.cons_append, List.cons_append, splitAtFence_cons]
      rw [if_neg (by rw [fence_not_prefixOf x _ hxb]; simp)]
      rw [ih (fun h => hx (by simp [h])) R]
      rfl

/-- No fence at all in a backtick-free list. -/
lemma splitAtFence_free : ∀ (Y : List Char), '`' ∉ Y → splitAtFence Y = none := by
  intro Y
  induction Y with
  | nil => intro _; rfl
  | cons y Y ih =>
      intro hy
      have hyb : y ≠ '`' := fun h => hy (by simp [h])
      rw [splitAtFence]
      rw [if_neg (by rw [fence_not_prefixOf y Y hyb]; simp)]
      rw [ih (fun h => hy (by simp [h]))]
      rfl

lemma scanDriver_nil {α : Type} (tryM : List Char → Option (α × List Char)) :
    ∀ fuel, scanDriver tryM fuel [] = [] := by
  intro fuel
  cases fuel <;> rfl

/-- Scanning skips a non-backtick head. -/
lemma scanDriver_skip {α : Type} (tryM : List Char → Option (α × List Char))
    (fuel : Nat) (c : Char) (cs : List Char) (hc : c ≠ '`') :
    scanDriver tryM (fuel + 1) (c :: cs) = scanDriver tryM fuel cs := by
  rw [scanDriver]
  rw [if_neg (by rw [fence_not_prefixOf c cs hc]; simp)]

/-- Scanning passes over a backtick-free prefix. -/
lemma scanDriver_free {α : Type} (tryM : List Char → Option (α × List Char)) :
    ∀ (A : List Char), '`' ∉ A → ∀ fuel cs,
      scanDriver tryM (A.length + fuel) (A ++ cs) = scanDriver tryM fuel cs := by
  intro A
  induction A with
  | nil =>
      intro _ fuel cs
      rw [List.length_nil, Nat.zero_add, List.nil_append]
  | cons a A ih =>
      intro ha fuel cs
      have hab : a ≠ '`' := fun h => ha (by simp [h])
      rw [List.cons_append]
      rw [show (a :: A).length + fuel = (A.length + fuel) + 1 by simp [List.length_cons]; omega]
      rw [scanDriver_skip tryM (A.length + fuel) a (A ++ cs) hab]
      exact ih (fun h => ha (by simp [h])) fuel cs

/-- Scanning at a fence whose match succeeds. -/
lemma scanDriver_match {α : Type} (tryM : List Char → Option (α × List Char))
    (fuel : Nat) (cs' : List Char) (a : α) (rem : List Char)
    (h : tryM cs' = some (a, rem)) :
    scanDriver tryM (fuel + 1) (fenceChars ++ cs') = a :: scanDriver tryM fuel rem := by
  show scanDriver tryM (fuel + 1) ('`' :: '`' :: '`' :: cs') = _
  rw [scanDriver]
  rw [if_pos (by rw [fence_prefixOf])]
  show (match tryM cs' with
    | some (a, remaining) => a :: scanDriver tryM fuel remaining
    | none => scanDriver tryM fuel ('`' :: '`' :: cs')) = _
  rw [h]

/-- Scanning at a fence whose match fails moves on; when the text after
the fence does not itself begin with a backtick, the two stranded
backticks are skipped as well. -/
lemma scanDriver_failfence {α : Type} (tryM : List Char → Option (α × List Char))
    (fuel : Nat) (cs' : List Char) (h : tryM cs' = none)
    (hcs : ∀ c, cs'.head? = some c → c ≠ '`') :
    scanDriver tryM (fuel + 3) (fenceChars ++ cs') = scanDriver tryM fuel cs' := by
  show scanDriver tryM (fuel + 2 + 1) ('`' :: '`' :: '`' :: cs') = _
  rw [scanDriver]
  rw [if_pos (by rw [fence_prefixOf])]
  show (match tryM cs' with
    | some (a, remaining) => a :: scanDriver tryM (fuel + 2) remaining
    | none => scanDriver tryM (fuel + 2) ('`' :: '`' :: cs')) = _
  rw [h]
  show scanDriver tryM (fuel + 1 + 1) ('`' :: '`' :: cs') = _
  rw [scanDriver, if_neg (by rw [fence_not_prefixOf_two cs' hcs]; simp)]
  show scanDriver tryM (fuel + 0 + 1) ('`' :: cs') = _
  rw [scanDriver, if_neg (by rw [fence_not_prefixOf_one cs' hcs]; simp)]

/-- A bare fence at the end of the input yields nothing. -/
lemma scanDriver_fence_end {α : Type} (tryM : List Char → Option (α × List Char))
    (fuel : Nat) (h : tryM [] = none) :
    scanDriver tryM (fuel + 3) fenceChars = [] := by
  have := scanDriver_failfence tryM fuel [] h (fun c hc => by cases hc)
  rw [show fenceChars ++ [] = fenceChars by simp] at this
  rw [this, scanDriver_nil]

/-- Trimming ignores a trailing whitespace character. -/
lemma trimChars_append_space (X : List Char) (c : Char) (hc : isSpaceJS c = true) :
    trimChars (X ++ [c]) = trimChars X := by
  unfold trimChars
  rw [List.dropWhile_append]
  by_cases hX : (X.dropWhile isSpaceJS).isEmpty
  · rw [if_pos hX]
    have h1 : List.dropWhile isSpaceJS [c] = [] := by simp [List.dropWhile_cons, hc]
    rw [h1]
    have h2 : X.dropWhile isSpaceJS = [] := by
      cases hd : X.dropWhile isSpaceJS with
      | nil => rfl
      | cons a l => rw [hd] at hX; simp at hX
    rw [h2]
  · rw [if_neg hX, List.reverse_append]
    have h1 : ([c] : List Char).reverse = [c] := rfl
    rw [h1, List.singleton_append, List.dropWhile_cons, hc]
    simp

/-! ### Canonical pattern-1 blocks (C4) -/

/-- Text after the opening backticks of a pattern-1 block: the word
language tag, one space, `attr=`, the quoted filename, a newline, then
`B` (the body, followed by the closing fence when the block is
terminated). -/
def p1Rest (lang : List Char) (attr : String) (q : Char) (fname B : List Char) :
    List Char :=
  lang ++ ' ' :: (attr.toList ++ '=' :: q :: (fname ++ q :: '\n' :: B))

/-- A complete fenced block carrying a filename attribute. -/
def mkFencedBlock (lang : List Char) (attr : String) (q : Char)
    (fname body : List Char) : List Char :=
  fenceChars ++ p1Rest lang attr q fname (body ++ '\n' :: fenceChars)

/-- The same block cut off before its closing fence has arrived. -/
def mkUnterminatedBlock (lang : List Char) (attr : String) (q : Char)
    (fname body : List Char) : List Char :=
  fenceChars ++ p1Rest lang attr q fname body

/-- `B` sits at the right end of `p1Rest`, so appending extends it. -/
lemma p1Rest_append (lang : List Char) (attr : String) (q : Char)
    (fname B C : List Char) :
    p1Rest lang attr q fname B ++ C = p1Rest lang attr q fname (B ++ C) := by
  simp [p1Rest]

/-- A word character is never a backtick. -/
lemma wordChar_ne_backtick (c : Char) (h : isWordChar c = true) : c ≠ '`' := by
  intro hc
  subst hc
  exact absurd h (by decide)

/-- A take-1 bound on a predicate gives the head-form bound. -/
lemma head_pred_of_take (p : Char → Bool) (B : List Char)
    (hB : ∀ c ∈ B.take 1, p c = false) :
    ∀ b, B.head? = some b → p b = false := by
  intro b hb
  cases B with
  | nil => cases hb
  | cons x xs =>
      simp only [List.head?_cons, Option.some.injEq] at hb
      subst hb
      exact hB x (by simp)

/-- A `\s*` run consisting of one newline followed by text whose first
character is not whitespace. -/
lemma spaceRun_newline (B : List Char) (hB : ∀ c ∈ B.take 1, isSpaceJS c = false) :
    ('\n' :: B).takeWhile isSpaceJS = ['\n'] ∧ ('\n' :: B).dropWhile isSpaceJS = B := by
  have h := takeWhile_dropWhile_append isSpaceJS ['\n'] B
    (fun a ha => by simp only [List.mem_singleton] at ha; subst ha; rfl)
    (head_pred_of_take isSpaceJS B hB)
  rw [List.singleton_append] at h
  exact h

/-- The canonical pattern-1 rest holds no backtick when neither the
filename nor the trailing part does. -/
lemma no_backtick_p1Rest (lang : List Char) (attr : String) (q : Char)
    (fname B : List Char)
    (hlang : ∀ c ∈ lang, isWordChar c = true)
    (hattr : attr = "filename" ∨ attr = "file")
    (hq : isQuote q = true)
    (hfname : '`' ∉ fname) (hB : '`' ∉ B) :
    '`' ∉ p1Rest lang attr q fname B := by
  intro hmem
  simp only [p1Rest, List.mem_append, List.mem_cons] at hmem
  rcases hmem with hl | hsp | hat | heq | hqq | hf | hqq | hn | hb
  · exact wordChar_ne_backtick '`' (hlang '`' hl) rfl
  · exact absurd hsp (by decide)
  · rcases hattr with h | h <;> subst h <;> revert hat <;> decide
  · exact absurd heq (by decide)
  · rw [← hqq] at hq; exact absurd hq (by decide)
  · exact hfname hf
  · rw [← hqq] at hq; exact absurd hq (by decide)
  · exact absurd hn (by decide)
  · exact hB hb

/-- The canonical pattern-1 rest never starts with a backtick. -/
lemma p1Rest_head_ne_backtick (lang : List Char) (attr : String) (q : Char)
    (fname B : List Char) (hlang : ∀ c ∈ lang, isWordChar c = true) :
    ∀ c, (p1Rest lang attr q fname B).head? = some c → c ≠ '`' := by
  intro c hc
  cases lang with
  | nil =>
      simp only [p1Rest, List.nil_append, List.head?_cons, Option.some.injEq] at hc
      subst hc
      decide
  | cons x xs =>
      simp only [p1Rest, List.cons_append, List.head?_cons, Option.some.injEq] at hc
      rw [← hc]
      exact wordChar_ne_backtick x (hlang x (by simp))

/-- Stage 4 on a canonical terminated tail: the `\s*\n` run is the single
newline, the lazy body stops at the leftmost closing fence, and the
newline swallowed by the body group is trimmed away again. -/
lemma p1Body_canonical (w fname body R : List Char)
    (hb : '`' ∉ body) (hhead : ∀ c ∈ body.take 1, isSpaceJS c = false)
    (hne : body ≠ []) :
    p1Body w fname ('\n' :: (body ++ '\n' :: (fenceChars ++ R))) =
      some ({ filename := fname.asString,
              content := (trimChars body).asString,
              language := if w.isEmpty then "plaintext" else w.asString }, R) := by
  have hB1 : ∀ c ∈ (body ++ '\n' :: (fenceChars ++ R)).take 1, isSpaceJS c = false := by
    cases body with
    | nil => exact absurd rfl hne
    | cons x xs =>
        intro c hc
        simp only [List.cons_append, List.take_succ_cons, List.take_zero,
          List.mem_singleton] at hc
        subst hc
        exact hhead _ (by simp)
  have hsp := spaceRun_newline (body ++ '\n' :: (fenceChars ++ R)) hB1
  have hsplit : splitAtFence (body ++ '\n' :: (fenceChars ++ R)) =
      some (body ++ ['\n'], R) := by
    have hre : body ++ '\n' :: (fenceChars ++ R) = (body ++ ['\n']) ++ fenceChars ++ R := by
      simp
    rw [hre]
    refine splitAtFence_clean (body ++ ['\n']) ?_ R
    intro h
    rcases List.mem_append.mp h with h | h
    · exact hb h
    · simp only [List.mem_singleton] at h
      exact absurd h (by decide)
  simp only [p1Body, hsp.1, hsp.2]
  rw [show afterLastNewline ['\n'] = some [] from rfl]
  rw [Option.some_bind, List.nil_append, hsplit, Option.map_some']
  dsimp only
  rw [trimChars_append_space body '\n' rfl]

/-- Stage 4 on an unterminated tail: no closing fence, no match. -/
lemma p1Body_unterminated (w fname body : List Char)
    (hb : '`' ∉ body) (hhead : ∀ c ∈ body.take 1, isSpaceJS c = false) :
    p1Body w fname ('\n' :: body) = none := by
  have hsp := spaceRun_newline body hhead
  simp only [p1Body, hsp.1, hsp.2]
  rw [show afterLastNewline ['\n'] = some [] from rfl]
  rw [Option.some_bind, List.nil_append, splitAtFence_free body hb, Option.map_none']

/-- Stage 3 on a canonical quoted filename. -/
lemma p1Quoted_canonical (w fname : List Char) (q : Char) (B : List Char)
    (hq : isQuote q = true) (hfname : fname ≠ [])
    (hfq : ∀ c ∈ fname, isQuote c = false) :
    p1Quoted w (q :: (fname ++ q :: '\n' :: B)) = p1Body w fname ('\n' :: B) := by
  have hf := takeWhile_dropWhile_append (fun c => !isQuote c) fname (q :: '\n' :: B)
    (fun a ha => by simp [hfq a ha])
    (fun b hb => by
      simp only [List.head?_cons, Option.some.injEq] at hb
      subst hb
      simp [hq])
  simp only [p1Quoted, hf.1, hf.2]
  rw [if_pos hq]
  rw [if_neg (by rw [List.isEmpty_eq_true]; exact hfname)]

/-- Stages 1 and 2 on the canonical rest: the word run is the language
tag, `\s+` eats exactly the one space, and the fitting attribute
alternative hands over to the quoted-filename stage. -/
lemma tryP1_canonical (lang : List Char) (attr : String) (q : Char)
    (fname B : List Char)
    (hlang : ∀ c ∈ lang, isWordChar c = true)
    (hattr : attr = "filename" ∨ attr = "file") :
    tryP1 (p1Rest lang attr q fname B) =
      p1Quoted lang (q :: (fname ++ q :: '\n' :: B)) := by
  have hw := takeWhile_dropWhile_append isWordChar lang
    (' ' :: (attr.toList ++ '=' :: q :: (fname ++ q :: '\n' :: B)))
    hlang
    (fun b hb => by
      simp only [List.head?_cons, Option.some.injEq] at hb
      subst hb
      rfl)
  simp only [p1Rest, tryP1, hw.1, hw.2]
  rw [if_pos (show isSpaceJS ' ' = true from rfl)]
  rcases hattr with h | h <;> subst h <;> rfl

/-- Pattern 2 dies at a candidate whose `\s*` run after the word tag is a
single plain space: the run cannot end with the newline the pattern
requires. -/
lemma tryP2_no_newline (rest : List Char)
    (h : (rest.dropWhile isWordChar).takeWhile isSpaceJS = [' ']) :
    tryP2 rest = none := by
  simp only [tryP2, h]
  rfl

/-- A backtick-free text is scanned to its end without a match. -/
lemma scanDriver_all_free {α : Type} (tryM : List Char → Option (α × List Char))
    (A : List Char) (hA : '`' ∉ A) (fuel : Nat) :
    scanDriver tryM (A.length + fuel) A = [] := by
  have h := scanDriver_free tryM A hA fuel []
  rw [List.append_nil] at h
  rw [h, scanDriver_nil]

/-- **C4.** For every canonical fenced block whose opening fence carries a
filename attribute (`filename=` or `file=`, either quote style),
`extractCodeBlocks` returns exactly one entry: its `filename` is the
attribute value, its `content` is the block body trimmed only at the
outer edges, and its `language` is the word tag, defaulting to
`"plaintext"` when the tag is absent; the same block with its closing
fence missing (unterminated at end of input) yields zero entries. -/
theorem extractCodeBlocks_fenced (lang fname body : List Char) (attr : String)
    (q : Char)
    (hlang : ∀ c ∈ lang, isWordChar c = true)
    (hattr : attr = "filename" ∨ attr = "file")
    (hq : isQuote q = true)
    (hfname : fname ≠ [])
    (hfq : ∀ c ∈ fname, isQuote c = false ∧ c ≠ '`')
    (hbody : '`' ∉ body)
    (hbhead : ∀ c ∈ body.take 1, isSpaceJS c = false)
    (hbne : body ≠ []) :
    AIService.extractCodeBlocks (mkFencedBlock lang attr q fname body).asString =
      [{ filename := fname.asString, content := (trimChars body).asString,
         language := if lang.isEmpty then "plaintext" else lang.asString }] ∧
    AIService.extractCodeBlocks (mkUnterminatedBlock lang attr q fname body).asString
      = [] := by
  have hfq1 : ∀ c ∈ fname, isQuote c = false := fun c hc => (hfq c hc).1
  have hfb : '`' ∉ fname := fun h => (hfq '`' h).2 rfl
  have ht1 : tryP1 (p1Rest lang attr q fname (body ++ '\n' :: fenceChars)) =
      some ({ filename := fname.asString, content := (trimChars body).asString,
              language := if lang.isEmpty then "plaintext" else lang.asString }, []) := by
    rw [tryP1_canonical lang attr q fname _ hlang hattr,
        p1Quoted_canonical lang fname q _ hq hfname hfq1]
    have h := p1Body_canonical lang fname body [] hbody hbhead hbne
    rw [List.append_nil] at h
    exact h
  have ht1u : tryP1 (p1Rest lang attr q fname body) = none := by
    rw [tryP1_canonical lang attr q fname _ hlang hattr,
        p1Quoted_canonical lang fname q _ hq hfname hfq1]
    exact p1Body_unterminated lang fname body hbody hbhead
  have ht2 : ∀ B, tryP2 (p1Rest lang attr q fname B) = none := by
    intro B
    refine tryP2_no_newline _ ?_
    have hw := takeWhile_dropWhile_append isWordChar lang
      (' ' :: (attr.toList ++ '=' :: q :: (fname ++ q :: '\n' :: B))) hlang
      (fun b hb => by
        simp only [List.head?_cons, Option.some.injEq] at hb
        subst hb
        rfl)
    simp only [p1Rest, hw.2]
    rcases hattr with h | h <;> subst h <;> rfl
  have hhead1 := p1Rest_head_ne_backtick lang attr q fname
      (body ++ '\n' :: fenceChars) hlang
  have hheadu := p1Rest_head_ne_backtick lang attr q fname body hlang
  have hA : '`' ∉ p1Rest lang attr q fname (body ++ ['\n']) := by
    refine no_backtick_p1Rest lang attr q fname _ hlang hattr hq hfb ?_
    intro h
    rcases List.mem_append.mp h with h | h
    · exact hbody h
    · simp only [List.mem_singleton] at h
      exact absurd h (by decide)
  have hfree : '`' ∉ p1Rest lang attr q fname body :=
    no_backtick_p1Rest lang attr q fname body hlang hattr hq hfb hbody
  have hre : p1Rest lang attr q fname (body ++ '\n' :: fenceChars) =
      p1Rest lang attr q fname (body ++ ['\n']) ++ fenceChars := by
    rw [p1Rest_append]
    congr 1
    simp
  constructor
  · simp only [AIService.extractCodeBlocks]
    rw [show ((mkFencedBlock lang attr q fname body).asString).toList =
        mkFencedBlock lang attr q fname body from rfl]
    simp only [mkFencedBlock]
    rw [scanDriver_match tryP1 _ _ _ _ ht1, scanDriver_nil]
    rw [show (fenceChars ++
          p1Rest lang attr q fname (body ++ '\n' :: fenceChars)).length + 1 =
        ((p1Rest lang attr q fname (body ++ '\n' :: fenceChars)).length + 1) + 3 from by
      simp only [List.length_append, fenceChars, List.length_cons, List.length_nil]
      omega]
    rw [scanDriver_failfence tryP2 _ _ (ht2 _) hhead1]
    rw [hre]
    rw [show (p1Rest lang attr q fname (body ++ ['\n']) ++ fenceChars).length + 1 =
        (p1Rest lang attr q fname (body ++ ['\n'])).length + 4 from by
      simp only [List.length_append, fenceChars, List.length_cons, List.length_nil]]
    rw [scanDriver_free tryP2 _ hA 4 fenceChars]
    rw [show scanDriver tryP2 4 fenceChars = ([] : List CodeBlock) from
      scanDriver_fence_end tryP2 1 rfl]
    rfl
  · simp only [AIService.extractCodeBlocks]
    rw [show ((mkUnterminatedBlock lang attr q fname body).asString).toList =
        mkUnterminatedBlock lang attr q fname body from rfl]
    simp only [mkUnterminatedBlock]
    rw [show (fenceChars ++ p1Rest lang attr q fname body).length + 1 =
        ((p1Rest lang attr q fname body).length + 1) + 3 from by
      simp only [List.length_append, fenceChars, List.length_cons, List.length_nil]
      omega]
    rw [scanDriver_failfence tryP1 _ _ ht1u hheadu]
    rw [scanDriver_failfence tryP2 _ _ (ht2 _) hheadu]
    rw [scanDriver_all_free tryP1 _ hfree 1, scanDriver_all_free tryP2 _ hfree 1]
    rfl

/-- Witness for C4 at a concrete block: language tag `tsx`, attribute
`filename="app/page.tsx"`, a one-line body. -/
theorem extractCodeBlocks_fenced_witness :
    AIService.extractCodeBlocks
        (mkFencedBlock "tsx".toList "filename" '"' "app/page.tsx".toList
          "export default x".toList).asString =
      [{ filename := "app/page.tsx", content := "export default x",
         language := "tsx" }] ∧
    AIService.extractCodeBlocks
        (mkUnterminatedBlock "tsx".toList "filename" '"' "app/page.tsx".toList
          "export default x".toList).asString = [] :=
  extractCodeBlocks_fenced "tsx".toList "app/page.tsx".toList
    "export default x".toList "filename" '"'
    (by decide) (Or.inl rfl) (by decide) (by decide) (by decide) (by decide)
    (by decide) (by decide)

/-! ### Canonical shell blocks (C8) -/

/-- A canonical fenced shell block: the tag, a newline, the body, a
newline and the closing fence. -/
def mkShellBlock (tag : String) (body : List Char) : List Char :=
  fenceChars ++ (tag.toList ++ '\n' :: (body ++ '\n' :: fenceChars))

/-- Newline-joined lines (the shape of a multi-line block body). -/
def joinLines : List (List Char) → List Char
  | [] => []
  | [l] => l
  | l :: ls => l ++ '\n' :: joinLines ls

/-- Prepending a nonempty text with a non-whitespace head keeps the
first character non-whitespace. -/
lemma take1_append_cons (body : List Char) (y : Char) (Z : List Char)
    (hhead : ∀ c ∈ body.take 1, isSpaceJS c = false) (hne : body ≠ []) :
    ∀ c ∈ (body ++ y :: Z).take 1, isSpaceJS c = false := by
  cases body with
  | nil => exact absurd rfl hne
  | cons x xs =>
      intro c hc
      simp only [List.cons_append, List.take_succ_cons, List.take_zero,
        List.mem_singleton] at hc
      subst hc
      exact hhead _ (by simp)

/-- The leftmost fence after a backtick-free body ending in a newline. -/
lemma splitAtFence_body (body R : List Char) (hb : '`' ∉ body) :
    splitAtFence (body ++ '\n' :: (fenceChars ++ R)) = some (body ++ ['\n'], R) := by
  have hre : body ++ '\n' :: (fenceChars ++ R) = (body ++ ['\n']) ++ fenceChars ++ R := by
    simp
  rw [hre]
  refine splitAtFence_clean (body ++ ['\n']) ?_ R
  intro h
  rcases List.mem_append.mp h with h | h
  · exact hb h
  · simp only [List.mem_singleton] at h
    exact absurd h (by decide)

/-- The `\s*\n` and lazy-body stages of the shell pattern on a canonical
terminated tail. -/
lemma shellAfterTag_canonical (body R : List Char) (hb : '`' ∉ body)
    (hh : ∀ c ∈ body.take 1, isSpaceJS c = false) (hne : body ≠ []) :
    shellAfterTag ('\n' :: (body ++ '\n' :: (fenceChars ++ R))) =
      some (body ++ ['\n'], R) := by
  have hsp := spaceRun_newline (body ++ '\n' :: (fenceChars ++ R))
    (take1_append_cons body '\n' (fenceChars ++ R) hh hne)
  simp only [shellAfterTag, hsp.1, hsp.2]
  rw [show afterLastNewline ['\n'] = some [] from rfl]
  rw [Option.some_bind, List.nil_append, splitAtFence_body body R hb]

/-- The shell alternation on a canonical tagged block: the alternatives
are tried in source order with full continuation, and each of the four
tags reaches its own newline stage. -/
lemma tryShell_canonical (tag : String)
    (htag : tag ∈ (["bash", "sh", "zsh", "shell"] : List String))
    (body R : List Char) (hb : '`' ∉ body)
    (hh : ∀ c ∈ body.take 1, isSpaceJS c = false) (hne : body ≠ []) :
    tryShell (tag.toList ++ '\n' :: (body ++ '\n' :: (fenceChars ++ R))) =
      some (body ++ ['\n'], R) := by
  have hsat := shellAfterTag_canonical body R hb hh hne
  simp only [List.mem_cons, List.mem_singleton, List.not_mem_nil, or_false] at htag
  rcases htag with h | h | h | h <;> subst h
  all_goals
    show (shellAfterTag ('\n' :: (body ++ '\n' :: (fenceChars ++ R)))).or none = _
    rw [hsat]
    rfl

/-- A prefix that fails on `X` and avoids `c` also fails on `X ++ c :: Y`. -/
lemma not_isPrefixOf_append (c : Char) (Y : List Char) :
    ∀ (P : List Char), c ∉ P → ∀ (X : List Char), P.isPrefixOf X = false →
      P.isPrefixOf (X ++ c :: Y) = false := by
  intro P
  induction P with
  | nil =>
      intro _ X h
      rw [show List.isPrefixOf [] X = true from by cases X <;> rfl] at h
      exact absurd h (by decide)
  | cons p ps ih =>
      intro hc X h
      cases X with
      | nil =>
          rw [List.nil_append]
          show ((p == c) && List.isPrefixOf ps Y) = false
          have hpc : p ≠ c := fun hp => hc (List.mem_cons.mpr (Or.inl hp.symm))
          rw [beq_eq_false_iff_ne.mpr hpc, Bool.false_and]
      | cons x xs =>
          rw [List.cons_append]
          show ((p == x) && List.isPrefixOf ps (xs ++ c :: Y)) = false
          have hX : ((p == x) && List.isPrefixOf ps xs) = false := h
          by_cases hpx : p = x
          · subst hpx
            rw [show (p == p) = true from by simp, Bool.true_and] at hX ⊢
            exact ih (fun hm => hc (List.mem_cons_of_mem p hm)) xs hX
          · rw [beq_eq_false_iff_ne.mpr hpx, Bool.false_and]

/-- A tag that none of the four shell tags prefixes is rejected (none of
the alternatives can reach past the tag: they hold no newline). -/
lemma tryShell_not_shell (tag : String) (B : List Char)
    (hnot : ∀ T ∈ (["bash", "sh", "zsh", "shell"] : List String),
      (T.toList).isPrefixOf tag.toList = false) :
    tryShell (tag.toList ++ '\n' :: B) = none := by
  have h1 := not_isPrefixOf_append '\n' B "bash".toList (by decide) tag.toList
    (hnot "bash" (by simp))
  have h2 := not_isPrefixOf_append '\n' B "sh".toList (by decide) tag.toList
    (hnot "sh" (by simp))
  have h3 := not_isPrefixOf_append '\n' B "zsh".toList (by decide) tag.toList
    (hnot "zsh" (by simp))
  have h4 := not_isPrefixOf_append '\n' B "shell".toList (by decide) tag.toList
    (hnot "shell" (by simp))
  simp only [tryShell, tryShellTags, h1, h2, h3, h4]
  simp

/-- The head of `A ++ C` is a character of nonempty `A`. -/
lemma head_ne_backtick_of_not_mem (A C : List Char) (hA : '`' ∉ A) (hAne : A ≠ []) :
    ∀ c, (A ++ C).head? = some c → c ≠ '`' := by
  intro c hc heq
  subst heq
  cases A with
  | nil => exact hAne rfl
  | cons a as =>
      simp only [List.cons_append, List.head?_cons, Option.some.injEq] at hc
      exact hA (List.mem_cons.mpr (Or.inl hc.symm))

/-- A scan over `fence ++ A ++ fence` in which the opening candidate is
rejected and `A` is backtick-free finds nothing. -/
lemma scanShell_reject (A : List Char) (hA : '`' ∉ A)
    (hfail : tryShell (A ++ fenceChars) = none)
    (hhead : ∀ c, (A ++ fenceChars).head? = some c → c ≠ '`') :
    scanDriver tryShell ((fenceChars ++ (A ++ fenceChars)).length + 1)
      (fenceChars ++ (A ++ fenceChars)) = [] := by
  rw [show (fenceChars ++ (A ++ fenceChars)).length + 1 =
      ((A ++ fenceChars).length + 1) + 3 from by
    simp only [List.length_append, fenceChars, List.length_cons, List.length_nil]
    omega]
  rw [scanDriver_failfence tryShell _ _ hfail hhead]
  rw [show (A ++ fenceChars).length + 1 = A.length + 4 from by
    simp only [List.length_append, fenceChars, List.length_cons, List.length_nil]]
  rw [scanDriver_free tryShell A hA 4 fenceChars]
  exact scanDriver_fence_end tryShell 1 rfl

/-- A canonical shell block is matched whole, leaving its body (with the
newline the body group swallows) to the per-block command parser. -/
lemma extractCommands_shell_block (tag : String)
    (htag : tag ∈ (["bash", "sh", "zsh", "shell"] : List String))
    (body : List Char) (hb : '`' ∉ body)
    (hh : ∀ c ∈ body.take 1, isSpaceJS c = false) (hne : body ≠ []) :
    AIService.extractCommands (mkShellBlock tag body).asString =
      processShellBlock (body ++ ['\n']) := by
  simp only [AIService.extractCommands]
  rw [show ((mkShellBlock tag body).asString).toList = mkShellBlock tag body from rfl]
  simp only [mkShellBlock]
  have ht := tryShell_canonical tag htag body [] hb hh hne
  rw [List.append_nil] at ht
  rw [scanDriver_match tryShell _ _ _ _ ht, scanDriver_nil]
  simp

/-- Splitting a separator-free text yields one piece. -/
lemma splitOnCharAux_no_sep (sep : Char) :
    ∀ (l acc : List Char), sep ∉ l →
      splitOnCharAux sep l acc = [acc.reverse ++ l] := by
  intro l
  induction l with
  | nil =>
      intro acc _
      simp [splitOnCharAux]
  | cons c cs ih =>
      intro acc hmem
      rw [splitOnCharAux,
        if_neg (fun h => hmem (List.mem_cons.mpr (Or.inl h.symm)))]
      rw [ih (c :: acc) (fun h => hmem (List.mem_cons_of_mem c h))]
      simp

/-- Splitting past the first separator. -/
lemma splitOnCharAux_append_sep (sep : Char) :
    ∀ (l acc rest : List Char), sep ∉ l →
      splitOnCharAux sep (l ++ sep :: rest) acc =
        (acc.reverse ++ l) :: splitOnCharAux sep rest [] := by
  intro l
  induction l with
  | nil =>
      intro acc rest _
      rw [List.nil_append, splitOnCharAux, if_pos rfl]
      simp
  | cons c cs ih =>
      intro acc rest hmem
      rw [List.cons_append, splitOnCharAux,
        if_neg (fun h => hmem (List.mem_cons.mpr (Or.inl h.symm)))]
      rw [ih (c :: acc) rest (fun h => hmem (List.mem_cons_of_mem c h))]
      simp

/-- `content.split("\n")` undoes the newline join of newline-free lines. -/
lemma splitOnCharAux_joinLines :
    ∀ (lines : List (List Char)), lines ≠ [] →
      (∀ l ∈ lines, '\n' ∉ l) →
      splitOnCharAux '\n' (joinLines lines) [] = lines := by
  intro lines
  induction lines with
  | nil => intro h _; exact absurd rfl h
  | cons l ls ih =>
      intro _ hmem
      cases ls with
      | nil =>
          rw [show joinLines [l] = l from rfl]
          rw [splitOnCharAux_no_sep '\n' l [] (hmem l (by simp))]
          simp
      | cons l2 ls2 =>
          rw [show joinLines (l :: l2 :: ls2) = l ++ '\n' :: joinLines (l2 :: ls2)
            from rfl]
          rw [splitOnCharAux_append_sep '\n' l [] _ (hmem l (by simp))]
          rw [ih (by simp) (fun x hx => hmem x (List.mem_cons_of_mem l hx))]
          simp

/-- Per-line command parsing of a canonical multi-line body: the skip
heuristic does not fire, the split returns the lines, and each kept line
becomes one command. -/
lemma processShellBlock_lines (lines : List (List Char))
    (hne : lines ≠ [])
    (hnl : ∀ l ∈ lines, '\n' ∉ l ∧ trimChars l = l)
    (hhead : ∀ c ∈ (joinLines lines).take 1, isSpaceJS c = false ∧ c ≠ '#' ∧ c ≠ '/')
    (htrim : trimChars (joinLines lines) = joinLines lines)
    (hjne : joinLines lines ≠ []) :
    processShellBlock (joinLines lines ++ ['\n']) =
      (lines.filter (fun l => ¬ l.isEmpty && ¬ (l.head? = some '#'))).map
        (fun l =>
          { command := ((wordsOf l).headD []).asString,
            args := ((wordsOf l).drop 1).map (fun a => a.asString),
            raw := l.asString }) := by
  simp only [processShellBlock]
  rw [trimChars_append_space (joinLines lines) '\n' rfl, htrim]
  rw [splitOnCharAux_joinLines lines hne (fun l hl => (hnl l hl).1)]
  have hmap : ∀ (L : List (List Char)), (∀ l ∈ L, trimChars l = l) →
      L.map trimChars = L := by
    intro L
    induction L with
    | nil => intro _; rfl
    | cons a as ihm =>
        intro h
        rw [List.map_cons, h a (by simp), ihm (fun x hx => h x (by simp [hx]))]
  cases hj : joinLines lines with
  | nil => exact absurd hj hjne
  | cons c X =>
      have hc := hhead c (by rw [hj]; simp)
      split_ifs with h
      · exfalso
        rw [show ("//".toList).isPrefixOf (c :: X) = false from by
          show (('/' == c) && List.isPrefixOf ['/'] X) = false
          rw [beq_eq_false_iff_ne.mpr (Ne.symm hc.2.2), Bool.false_and]] at h
        simp [hc.2.1] at h
      · rw [hmap lines (fun l hl => (hnl l hl).2)]

/-- The skip heuristic: a block whose trimmed body starts with a comment
marker whose first line contains a path character yields no commands. -/
lemma processShellBlock_skip (body : List Char)
    (htrim : trimChars body = body)
    (hmark : ("//".toList).isPrefixOf body = true ∨ body.head? = some '#')
    (hfl : (((splitOnCharAux '\n' body []).headD []).contains '/'
        || ((splitOnCharAux '\n' body []).headD []).contains '.') = true) :
    processShellBlock (body ++ ['\n']) = [] := by
  simp only [processShellBlock]
  rw [trimChars_append_space body '\n' rfl, htrim]
  split_ifs with h
  · rfl
  · exfalso
    rcases hmark with hm | hm
    · rw [hm, hfl] at h
      simp at h
    · rw [hfl] at h
      simp [hm] at h

/-- **C8.** `extractCommands` recognizes only fenced shell blocks:
(i) a canonical block tagged `bash`, `sh`, `zsh` or `shell` yields one
command per non-blank line not starting with `#`, each line split on
whitespace into the command and its ordered arguments; (ii) a shell
block whose very first line is a comment that looks like a filename
(contains `/` or `.`) is skipped entirely; (iii) a block whose tag none
of the four shell tags prefixes yields nothing; (iv) a fenced block
carrying a filename attribute yields nothing, even under a shell tag. -/
theorem extractCommands_shell_semantics :
    (∀ (tag : String), tag ∈ (["bash", "sh", "zsh", "shell"] : List String) →
      ∀ (lines : List (List Char)), lines ≠ [] →
      (∀ l ∈ lines, '\n' ∉ l ∧ trimChars l = l) →
      (∀ c ∈ (joinLines lines).take 1, isSpaceJS c = false ∧ c ≠ '#' ∧ c ≠ '/') →
      trimChars (joinLines lines) = joinLines lines →
      joinLines lines ≠ [] →
      '`' ∉ joinLines lines →
      AIService.extractCommands (mkShellBlock tag (joinLines lines)).asString =
        (lines.filter (fun l => ¬ l.isEmpty && ¬ (l.head? = some '#'))).map
          (fun l =>
            { command := ((wordsOf l).headD []).asString,
              args := ((wordsOf l).drop 1).map (fun a => a.asString),
              raw := l.asString })) ∧
    (∀ (tag : String), tag ∈ (["bash", "sh", "zsh", "shell"] : List String) →
      ∀ (body : List Char), '`' ∉ body →
      (∀ c ∈ body.take 1, isSpaceJS c = false) → body ≠ [] →
      trimChars body = body →
      (("//".toList).isPrefixOf body = true ∨ body.head? = some '#') →
      (((splitOnCharAux '\n' body []).headD []).contains '/'
        || ((splitOnCharAux '\n' body []).headD []).contains '.') = true →
      AIService.extractCommands (mkShellBlock tag body).asString = []) ∧
    (∀ (tag : String) (body : List Char),
      (∀ c ∈ tag.toList, isWordChar c = true) →
      (∀ T ∈ (["bash", "sh", "zsh", "shell"] : List String),
        (T.toList).isPrefixOf tag.toList = false) →
      '`' ∉ body →
      AIService.extractCommands (mkShellBlock tag body).asString = []) ∧
    (∀ (tag attr : String) (q : Char) (fname body : List Char),
      tag ∈ (["bash", "sh", "zsh", "shell"] : List String) →
      (attr = "filename" ∨ attr = "file") →
      isQuote q = true →
      '`' ∉ fname → '`' ∉ body →
      AIService.extractCommands
        (mkFencedBlock tag.toList attr q fname body).asString = []) := by
  refine ⟨?_, ?_, ?_, ?_⟩
  · intro tag htag lines hne hnl hhead htrim hjne hbt
    rw [extractCommands_shell_block tag htag (joinLines lines) hbt
      (fun c hc => (hhead c hc).1) hjne]
    exact processShellBlock_lines lines hne hnl hhead htrim hjne
  · intro tag htag body hb hh hne htrim hmark hfl
    rw [extractCommands_shell_block tag htag body hb hh hne]
    exact processShellBlock_skip body htrim hmark hfl
  · intro tag body hword hnot hb
    have hA : '`' ∉ tag.toList ++ '\n' :: (body ++ ['\n']) := by
      intro h
      simp only [List.mem_append, List.mem_cons, List.mem_singleton] at h
      rcases h with h | h | h | h
      · exact wordChar_ne_backtick '`' (hword '`' h) rfl
      · exact absurd h (by decide)
      · exact hb h
      · exact absurd h (by decide)
    have hfail : tryShell ((tag.toList ++ '\n' :: (body ++ ['\n'])) ++ fenceChars)
        = none := by
      rw [show (tag.toList ++ '\n' :: (body ++ ['\n'])) ++ fenceChars =
          tag.toList ++ '\n' :: (body ++ '\n' :: fenceChars) from by simp]
      exact tryShell_not_shell tag _ hnot
    simp only [AIService.extractCommands]
    rw [show ((mkShellBlock tag body).asString).toList = mkShellBlock tag body
      from rfl]
    simp only [mkShellBlock]
    rw [show tag.toList ++ '\n' :: (body ++ '\n' :: fenceChars) =
        (tag.toList ++ '\n' :: (body ++ ['\n'])) ++ fenceChars from by simp]
    rw [scanShell_reject _ hA hfail
      (head_ne_backtick_of_not_mem _ fenceChars hA (by simp))]
    rfl
  · intro tag attr q fname body htag hattr hq hfn hb
    have hlang : ∀ c ∈ tag.toList, isWordChar c = true := by
      simp only [List.mem_cons, List.mem_singleton, List.not_mem_nil, or_false] at htag
      rcases htag with h | h | h | h <;> subst h <;> decide
    have hB : '`' ∉ body ++ ['\n'] := by
      intro h
      rcases List.mem_append.mp h with h | h
      · exact hb h
      · simp only [List.mem_singleton] at h
        exact absurd h (by decide)
    have hA : '`' ∉ p1Rest tag.toList attr q fname (body ++ ['\n']) :=
      no_backtick_p1Rest tag.toList attr q fname _ hlang hattr hq hfn hB
    have hAne : p1Rest tag.toList attr q fname (body ++ ['\n']) ≠ [] := by
      simp [p1Rest]
    have hfail : tryShell (p1Rest tag.toList attr q fname (body ++ ['\n'])
        ++ fenceChars) = none := by
      simp only [List.mem_cons, List.mem_singleton, List.not_mem_nil, or_false] at htag
      rcases htag with h | h | h | h <;> subst h <;>
        rcases hattr with ha | ha <;> subst ha <;> rfl
    simp only [AIService.extractCommands]
    rw [show ((mkFencedBlock tag.toList attr q fname body).asString).toList =
        mkFencedBlock tag.toList attr q fname body from rfl]
    simp only [mkFencedBlock]
    rw [show p1Rest tag.toList attr q fname (body ++ '\n' :: fenceChars) =
        p1Rest tag.toList attr q fname (body ++ ['\n']) ++ fenceChars from by
      rw [p1Rest_append]
      congr 1
      simp]
    rw [scanShell_reject _ hA hfail
      (head_ne_backtick_of_not_mem _ fenceChars hA hAne)]
    rfl

/-- Witness for C8: a two-command `bash` block with a comment line, a
skipped `# setup.sh`-headed block, a rejected `python` block, and a
rejected `bash` block carrying a filename attribute. -/
theorem extractCommands_shell_semantics_witness :
    AIService.extractCommands (mkShellBlock "bash"
        (joinLines ["npm install".toList, "# note".toList,
          "npm run dev".toList])).asString =
      [{ command := "npm", args := ["install"], raw := "npm install" },
       { command := "npm", args := ["run", "dev"], raw := "npm run dev" }] ∧
    AIService.extractCommands
        (mkShellBlock "bash" "# setup.sh\nnpm i".toList).asString = [] ∧
    AIService.extractCommands
        (mkShellBlock "python" "print(1)".toList).asString = [] ∧
    AIService.extractCommands
        (mkFencedBlock "bash".toList "filename" '"' "run.sh".toList
          "npm i".toList).asString = [] :=
  ⟨extractCommands_shell_semantics.1 "bash" (by decide)
      ["npm install".toList, "# note".toList, "npm run dev".toList]
      (by decide) (by decide) (by decide) (by decide) (by decide) (by decide),
    extractCommands_shell_semantics.2.1 "bash" (by decide)
      "# setup.sh\nnpm i".toList
      (by decide) (by decide) (by decide) (by decide) (Or.inr (by decide))
      (by decide),
    extractCommands_shell_semantics.2.2.1 "python" "print(1)".toList
      (by decide) (by decide) (by decide),
    extractCommands_shell_semantics.2.2.2 "bash" "filename" '"'
      "run.sh".toList "npm i".toList
      (by decide) (Or.inl rfl) (by decide) (by decide) (by decide)⟩

/-! ## AI code application (src `AIService.applyCode`, `executeCommand`)

`executeCommand` branches on the command name: `npm`/`pnpm`/`yarn` have
their exit code checked (non-zero throws `"Command failed with exit code
..."`), every other command's exit code is awaited and ignored.  The
spawn oracle plays the role of the runtime environment, as in the
`WebContainerService` embedding. -/

/-- The package-manager check of `executeCommand`. -/
def isPackageManager (cmd : Command) : Bool :=
  cmd.command == "npm" || cmd.command == "pnpm" || cmd.command == "yarn"

/-- `AIService.executeCommand(cmd)`: spawn through the runtime service;
for `npm`/`pnpm`/`yarn` a non-zero exit code throws; for every other
command the exit code is ignored.  `.ok` means the method returned,
`.error` that it threw (caught by `applyCode`'s per-command catch). -/
def AIService.executeCommand (container : Option Unit)
    (oracle : Nat → SpawnOutcome) (cmd : Command) : Except String Unit :=
  match WebContainerService.spawn container oracle with
  | .error e => .error e
  | .ok (exitCode, _) =>
      if isPackageManager cmd then
        if exitCode ≠ 0 then
          .error ("Command failed with exit code " ++ toString exitCode)
        else .ok ()
      else .ok ()

/-- The claimed semantics of command execution, following the
specification's words: ANY command's non-zero exit is treated as a
failure for that command.  Kept for comparison with the code's
`executeCommand`. -/
def claimedExecuteCommand (container : Option Unit)
    (oracle : Nat → SpawnOutcome) (_cmd : Command) : Except String Unit :=
  match WebContainerService.spawn container oracle with
  | .error e => .error e
  | .ok (exitCode, _) =>
      if exitCode ≠ 0 then
        .error ("Command failed with exit code " ++ toString exitCode)
      else .ok ()

/-- The command loop of `applyCode`: each command's failure is caught
and the loop continues; `env i` is the spawn oracle seen by the `i`-th
command. -/
def runCommands (container : Option Unit) (env : Nat → Nat → SpawnOutcome) :
    Nat → List Command → Nat
  | _, [] => 0
  | i, c :: cs =>
      (match AIService.executeCommand container (env i) c with
        | .ok _ => 1
        | .error _ => 0) + runCommands container env (i + 1) cs

/-- The record `applyCode` returns, with the service state it leaves. -/
structure ApplyCodeResult where
  filesCreated : Nat
  filesUpdated : Nat
  commandsExecuted : Nat
  state : FSState
deriving Repr

/-- `AIService.applyCode(aiResponse)`: parse the response, submit every
code block as a `create` operation in a single `applyOperations` batch,
then execute the parsed commands in order, counting the ones that
returned; report `operations.length` as `filesCreated` and a literal `0`
as `filesUpdated`. -/
def AIService.applyCode (st : FSState) (container : Option Unit)
    (env : Nat → Nat → SpawnOutcome) (aiResponse : String) : ApplyCodeResult :=
  let operations := (AIService.extractCodeBlocks aiResponse).map (fun b =>
    { type := FileOpType.create, path := b.filename, content := some b.content,
      newPath := none })
  let r := FileSystemService.applyOperations st operations
  { filesCreated := operations.length,
    filesUpdated := 0,
    commandsExecuted :=
      runCommands container env 0 (AIService.extractCommands aiResponse),
    state := r.1 }

/-- **C6, counterexample.** A non-package-manager command (`ls -la`)
whose process exits `1` does NOT fail in the code — the exit code of
anything but `npm`/`pnpm`/`yarn` is awaited and discarded — and it is
counted in `commandsExecuted`, whereas the claimed semantics (a non-zero
exit fails that command) rejects it. -/
theorem executeCommand_nonzero_exit_counted :
    AIService.executeCommand (some ()) (fun _ => .proc 1 "out")
        { command := "ls", args := ["-la"], raw := "ls -la" } = .ok () ∧
    claimedExecuteCommand (some ()) (fun _ => .proc 1 "out")
        { command := "ls", args := ["-la"], raw := "ls -la" } =
      .error ("Command failed with exit code " ++ toString (1 : Int)) ∧
    (AIService.applyCode ⟨[], ⟨[], []⟩⟩ (some ()) (fun _ _ => .proc 1 "out")
        "```bash\nls -la\n```").commandsExecuted = 1 :=
  ⟨rfl, rfl, rfl⟩

/-- **C6.** (amended) `applyCode` converts every parsed code block into a
`create` operation and submits them as one `applyOperations` batch; it
returns `filesCreated` equal to the number of parsed blocks (the
submitted operations, whether or not each succeeded), `filesUpdated`
always `0`, and `commandsExecuted` equal to the number of commands whose
execution returned under the code's semantics: one command's failure
never affects how the commands after it are counted, and a command with
a spawned process is counted exactly when it is not a package-manager
command or its exit code is `0` — a non-zero exit fails only
`npm`/`pnpm`/`yarn` commands. -/
theorem applyCode_semantics (st : FSState) (env : Nat → Nat → SpawnOutcome)
    (text : String) :
    (AIService.applyCode st (some ()) env text).filesCreated =
      (AIService.extractCodeBlocks text).length ∧
    (AIService.applyCode st (some ()) env text).filesUpdated = 0 ∧
    (AIService.applyCode st (some ()) env text).state =
      (FileSystemService.applyOperations st
        ((AIService.extractCodeBlocks text).map (fun b =>
          { type := FileOpType.create, path := b.filename,
            content := some b.content, newPath := none }))).1 ∧
    (AIService.applyCode st (some ()) env text).commandsExecuted =
      runCommands (some ()) env 0 (AIService.extractCommands text) ∧
    (∀ (i : Nat) (cmds1 cmds2 : List Command),
      runCommands (some ()) env i (cmds1 ++ cmds2) =
        runCommands (some ()) env i cmds1 +
          runCommands (some ()) env (i + cmds1.length) cmds2) ∧
    (∀ (oracle : Nat → SpawnOutcome) (cmd : Command) (code : Int) (out : String),
      oracle 1 = .proc code out →
      (AIService.executeCommand (some ()) oracle cmd = .ok () ↔
        (isPackageManager cmd = false ∨ code = 0))) := by
  refine ⟨?_, rfl, rfl, rfl, ?_, ?_⟩
  · simp [AIService.applyCode, List.length_map]
  · intro i cmds1 cmds2
    induction cmds1 generalizing i with
    | nil => simp [runCommands]
    | cons c cs ih =>
        simp only [List.cons_append, runCommands, List.length_cons, List.append_eq]
        rw [ih (i + 1), show i + (cs.length + 1) = i + 1 + cs.length from by omega]
        omega
  · intro oracle cmd code out h1
    have hspawn : WebContainerService.spawn (some ()) oracle = .ok (code, out) := by
      show retryRun 2 _ = _
      rw [retryRun, retryFrom, h1]
    show (match WebContainerService.spawn (some ()) oracle with
      | .error e => Except.error e
      | .ok (exitCode, _) =>
          if isPackageManager cmd then
            if exitCode ≠ 0 then
              Except.error ("Command failed with exit code " ++ toString exitCode)
            else Except.ok ()
          else Except.ok ()) = Except.ok ()
      ↔ (isPackageManager cmd = false ∨ code = 0)
    rw [hspawn]
    by_cases hpm : isPackageManager cmd
    · by_cases hc : code = 0
      · simp [hpm, hc]
      · simp [hpm, hc]
    · rw [Bool.not_eq_true] at hpm
      simp [hpm]

/-- Witness for C6: one `js` block with a filename attribute plus a
`bash` block with `ls -la` (exit `1`, still counted) and `npm i` (exit
`1`, not counted): one file operation, zero updates, one command
executed, and the counting decomposes across the command list. -/
theorem applyCode_semantics_witness :
    (AIService.applyCode ⟨[], ⟨[], []⟩⟩ (some ()) (fun _ _ => .proc 1 "out")
        "```js filename=\"a.js\"\nlet x = 1\n```\n```bash\nls -la\nnpm i\n```").filesCreated
      = 1 ∧
    (AIService.applyCode ⟨[], ⟨[], []⟩⟩ (some ()) (fun _ _ => .proc 1 "out")
        "```js filename=\"a.js\"\nlet x = 1\n```\n```bash\nls -la\nnpm i\n```").filesUpdated
      = 0 ∧
    (AIService.applyCode ⟨[], ⟨[], []⟩⟩ (some ()) (fun _ _ => .proc 1 "out")
        "```js filename=\"a.js\"\nlet x = 1\n```\n```bash\nls -la\nnpm i\n```").commandsExecuted
      = 1 ∧
    runCommands (some ()) (fun _ _ => .proc 1 "out") 0
        ([{ command := "ls", args := ["-la"], raw := "ls -la" }] ++
          [{ command := "npm", args := ["i"], raw := "npm i" }]) =
      runCommands (some ()) (fun _ _ => .proc 1 "out") 0
          [{ command := "ls", args := ["-la"], raw := "ls -la" }] +
        runCommands (some ()) (fun _ _ => .proc 1 "out")
          (0 + ([{ command := "ls", args := ["-la"], raw := "ls -la" }] :
            List Command).length)
          [{ command := "npm", args := ["i"], raw := "npm i" }] ∧
    (AIService.executeCommand (some ()) (fun _ => .proc 1 "out")
        { command := "ls", args := ["-la"], raw := "ls -la" } = .ok () ↔
      (isPackageManager { command := "ls", args := ["-la"], raw := "ls -la" } = false ∨
        (1 : Int) = 0)) := by
  have h := applyCode_semantics ⟨[], ⟨[], []⟩⟩ (fun _ _ => .proc 1 "out")
    "```js filename=\"a.js\"\nlet x = 1\n```\n```bash\nls -la\nnpm i\n```"
  exact ⟨h.1, h.2.1, h.2.2.2.1,
    h.2.2.2.2.1 0 [{ command := "ls", args := ["-la"], raw := "ls -la" }]
      [{ command := "npm", args := ["i"], raw := "npm i" }],
    h.2.2.2.2.2 (fun _ => .proc 1 "out")
      { command := "ls", args := ["-la"], raw := "ls -la" } 1 "out" rfl⟩

end CodeFrame
